import Mathlib

/-!
Shallow embedding of the closeable bounded channel and broadcast hub of
src/pthread_stub.c, together with proofs of the specification claims.

Modelling conventions:
* Payloads (the MoonBit heap objects handed to send) are modelled by `Msg`
  (a Nat standing for the object identity); buffer slots hold `Option Msg`
  where `none` is a NULL slot (calloc fills the fresh buffer with NULL and
  dequeue clears slots back to NULL).
* The C struct mbt_chan is a Lean structure; the pthread mutex and
  condition variables carry no state that the sequential semantics needs.
  The buffer pointer may be NULL, hence `buf : Option (List (Option Msg))`.
* int/int64_t counters are modelled as Int; the int64 fields never
  approach their width under the proved invariants, so no 2^64 wrap is
  applied; the one explicit int32 cast in mbt_chan_len is modelled by
  `toInt32`.
* Blocking calls (mbt_chan_send, mbt_chan_recv) are given their
  single-thread semantics: when the pthread_cond_wait loop predicate holds
  and no other thread runs, the call never returns, encoded as `none`;
  `some` carries the returned value and the post state.
* moonbit_incref / moonbit_decref on the message being sent are modelled by
  counting them: operations return the number of times they released
  (decref) the reference the caller passed in; mbt_bcast_send additionally
  counts its increfs.  Payloads released while draining a buffer are
  returned as the list of released messages, in release order.
* malloc / calloc / realloc are modelled as succeeding; the allocation
  failure paths of mbt_chan_new and mbt_bcast_add_subscriber_locked are
  out of scope ("fatal, not recoverable" per the specification).
-/

abbrev Msg := Nat

/-- The int32_t cast in mbt_chan_len. -/
def toInt32 (n : Int) : Int := (n + 2 ^ 31) % 2 ^ 32 - 2 ^ 31

/-- State of struct mbt_chan (src/pthread_stub.c lines 88-101).  The mutex
and the two condition variables are synchronization-only and carry no data. -/
structure mbt_chan where
  destroyed : Bool
  closed : Bool
  senders : Int
  receivers : Int
  capacity : Int
  len : Int
  head : Int
  tail : Int
  buf : Option (List (Option Msg))
deriving DecidableEq, Repr

/-- Read slot i of the ring buffer, NULL when the buffer pointer is NULL. -/
def bufSlot (c : mbt_chan) (i : Int) : Option Msg :=
  match c.buf with
  | none => none
  | some b => b.getD i.toNat none

/-- The loop of mbt_chan_drop_messages (lines 110-118); the while loop runs
once per queued item, i.e. len.toNat times, releasing each non-NULL slot.
Returns the final buffer, the final head value and the released messages in
release order. -/
def dropLoopN (buf : List (Option Msg)) (head cap : Int) :
    Nat → List (Option Msg) × Int × List Msg
  | 0 => (buf, head, [])
  | n + 1 =>
    let msg := buf.getD head.toNat none
    let buf1 := buf.set head.toNat none
    let head1 := (head + 1) % cap
    let r := dropLoopN buf1 head1 cap n
    (r.1, r.2.1, match msg with | some m => m :: r.2.2 | none => r.2.2)

/-- mbt_chan_drop_messages (lines 103-121).  After the loop the len field
has been decremented once per iteration, hence len - len.toNat. -/
def chan_drop_messages (c : mbt_chan) : mbt_chan × List Msg :=
  match c.buf with
  | none => ({ c with len := 0, head := 0, tail := 0 }, [])
  | some buf =>
    if c.capacity ≤ 0 then ({ c with len := 0, head := 0, tail := 0 }, [])
    else
      let r := dropLoopN buf c.head c.capacity c.len.toNat
      ({ c with buf := some r.1, head := 0, tail := 0,
                len := c.len - c.len.toNat }, r.2.2)

/-- mbt_chan_destroy (lines 123-143): set destroyed and closed, drain the
buffer, detach the buffer pointer; freeing memory has no observable state. -/
def chan_destroy (c : mbt_chan) : mbt_chan × List Msg :=
  if c.destroyed = true then (c, [])
  else
    let r := chan_drop_messages { c with destroyed := true, closed := true }
    ({ r.1 with buf := none }, r.2)

/-- mbt_chan_new (lines 145-173) on the allocation-success path. -/
def mbt_chan_new (capacity : Int) : mbt_chan :=
  let capacity := if capacity ≤ 0 then 1 else capacity
  { destroyed := false, closed := false, senders := 1, receivers := 1,
    capacity := capacity, len := 0, head := 0, tail := 0,
    buf := some (List.replicate capacity.toNat none) }

/-- Body of mbt_chan_sender_clone (lines 175-186) for a non-NULL handle. -/
def chan_sender_clone (c : mbt_chan) : mbt_chan :=
  if c.destroyed = true then c else { c with senders := c.senders + 1 }

/-- Body of mbt_chan_receiver_clone (lines 188-199) for a non-NULL handle. -/
def chan_receiver_clone (c : mbt_chan) : mbt_chan :=
  if c.destroyed = true then c else { c with receivers := c.receivers + 1 }

/-- Body of mbt_chan_close (lines 201-214) for a non-NULL handle. -/
def chan_close (c : mbt_chan) : mbt_chan :=
  if c.destroyed = true then c else { c with closed := true }

/-- The shared enqueue step of mbt_chan_send and mbt_chan_try_send
(lines 235-237 resp. 259-261): write at tail, advance tail mod capacity,
increment len.  The C would fault on a NULL buffer; that path is
unreachable from the checked preconditions. -/
def chanEnqueue (c : mbt_chan) (msg : Msg) : mbt_chan :=
  { c with
    buf := match c.buf with
           | none => none
           | some b => some (b.set c.tail.toNat (some msg)),
    tail := (c.tail + 1) % c.capacity,
    len := c.len + 1 }

/-- The shared dequeue step of mbt_chan_recv and mbt_chan_try_recv
(lines 280-283 resp. 300-303): read at head, clear the slot, advance head
mod capacity, decrement len. -/
def chanDequeue (c : mbt_chan) : Option Msg × mbt_chan :=
  (bufSlot c c.head,
   { c with
     buf := match c.buf with
            | none => none
            | some b => some (b.set c.head.toNat none),
     head := (c.head + 1) % c.capacity,
     len := c.len - 1 })

/-- Body of mbt_chan_send (lines 216-241) for a non-NULL handle, with
single-thread semantics for the wait loop: `none` means the call is parked
on can_send and, with no other thread active, never returns.  On a
returned call the Nat counts how many times the reference passed by the
caller was released. -/
def chan_send (c : mbt_chan) (msg : Msg) : Option (Bool × mbt_chan × Nat) :=
  if c.destroyed = false ∧ c.closed = false ∧ 0 < c.receivers ∧
     c.len = c.capacity then
    none
  else if c.destroyed = true ∨ c.closed = true ∨ c.receivers = 0 then
    some (false, c, 1)
  else
    some (true, chanEnqueue c msg, 0)

/-- Body of mbt_chan_try_send (lines 243-265) for a non-NULL handle. -/
def chan_try_send (c : mbt_chan) (msg : Msg) : Bool × mbt_chan × Nat :=
  if c.destroyed = true ∨ c.closed = true ∨ c.receivers = 0 ∨
     c.len = c.capacity then
    (false, c, 1)
  else
    (true, chanEnqueue c msg, 0)

/-- Body of mbt_chan_recv (lines 267-288) for a non-NULL handle; `none`
means parked forever on can_recv (single-thread semantics); on success the
payload slot is handed out through out_box. -/
def chan_recv (c : mbt_chan) : Option (Bool × Option Msg × mbt_chan) :=
  if c.destroyed = false ∧ c.closed = false ∧ c.len = 0 then
    none
  else if c.destroyed = true ∨ c.len = 0 then
    some (false, none, c)
  else
    let r := chanDequeue c
    some (true, r.1, r.2)

/-- Body of mbt_chan_try_recv (lines 290-308) for a non-NULL handle. -/
def chan_try_recv (c : mbt_chan) : Bool × Option Msg × mbt_chan :=
  if c.destroyed = true ∨ c.len = 0 then
    (false, none, c)
  else
    let r := chanDequeue c
    (true, r.1, r.2)

/-- Body of mbt_chan_len (lines 310-319) for a non-NULL handle. -/
def chan_len (c : mbt_chan) : Int :=
  if c.destroyed = true then 0 else toInt32 c.len

/-- Body of mbt_chan_is_closed (lines 321-330) for a non-NULL handle. -/
def chan_is_closed (c : mbt_chan) : Bool :=
  if c.destroyed = true then true else c.closed

/-- Body of mbt_chan_sender_drop (lines 332-358) for a non-NULL handle.
Returns the new state and the payloads released by a triggered destroy. -/
def chan_sender_drop (c : mbt_chan) : mbt_chan × List Msg :=
  if c.destroyed = true then (c, [])
  else
    let senders := if 0 < c.senders then c.senders - 1 else c.senders
    let c1 := { c with senders := senders,
                       closed := if senders = 0 then true else c.closed }
    if 0 < c.senders ∧ senders = 0 ∧ c.receivers = 0 then
      chan_destroy c1
    else
      (c1, [])

/-- Body of mbt_chan_receiver_drop (lines 360-387) for a non-NULL handle.
Returns the new state and all payloads released (drain on last receiver,
then possibly the destroy, which finds an already empty buffer). -/
def chan_receiver_drop (c : mbt_chan) : mbt_chan × List Msg :=
  if c.destroyed = true then (c, [])
  else
    let receivers := if 0 < c.receivers then c.receivers - 1 else c.receivers
    let step :=
      if receivers = 0 then
        chan_drop_messages { c with receivers := receivers, closed := true }
      else
        ({ c with receivers := receivers }, ([] : List Msg))
    if 0 < c.receivers ∧ receivers = 0 ∧ c.senders = 0 then
      let r := chan_destroy step.1
      (r.1, step.2 ++ r.2)
    else
      step

/-- mbt_chan_send including the NULL-handle guard (lines 217-223). -/
def mbt_chan_send (h : Option mbt_chan) (msg : Msg) :
    Option (Bool × Option mbt_chan × Nat) :=
  match h with
  | none => some (false, none, 1)
  | some c => (chan_send c msg).map fun r => (r.1, some r.2.1, r.2.2)

/-- mbt_chan_try_send including the NULL-handle guard (lines 244-250). -/
def mbt_chan_try_send (h : Option mbt_chan) (msg : Msg) :
    Bool × Option mbt_chan × Nat :=
  match h with
  | none => (false, none, 1)
  | some c =>
    let r := chan_try_send c msg
    (r.1, some r.2.1, r.2.2)

/-- mbt_chan_recv including the NULL-handle guard (lines 268-271). -/
def mbt_chan_recv (h : Option mbt_chan) :
    Option (Bool × Option Msg × Option mbt_chan) :=
  match h with
  | none => some (false, none, none)
  | some c => (chan_recv c).map fun r => (r.1, r.2.1, some r.2.2)

/-- mbt_chan_try_recv including the NULL-handle guard (lines 291-294). -/
def mbt_chan_try_recv (h : Option mbt_chan) :
    Bool × Option Msg × Option mbt_chan :=
  match h with
  | none => (false, none, none)
  | some c =>
    let r := chan_try_recv c
    (r.1, r.2.1, some r.2.2)

/-- mbt_chan_close including the NULL-handle guard (lines 202-205). -/
def mbt_chan_close (h : Option mbt_chan) : Option mbt_chan :=
  match h with
  | none => none
  | some c => some (chan_close c)

/-- mbt_chan_sender_clone including the NULL-handle guard (lines 176-179). -/
def mbt_chan_sender_clone (h : Option mbt_chan) : Option mbt_chan :=
  match h with
  | none => none
  | some c => some (chan_sender_clone c)

/-- mbt_chan_receiver_clone including the NULL-handle guard (lines 189-192). -/
def mbt_chan_receiver_clone (h : Option mbt_chan) : Option mbt_chan :=
  match h with
  | none => none
  | some c => some (chan_receiver_clone c)

/-- mbt_chan_sender_drop including the NULL-handle guard (lines 333-336). -/
def mbt_chan_sender_drop (h : Option mbt_chan) : Option mbt_chan × List Msg :=
  match h with
  | none => (none, [])
  | some c =>
    let r := chan_sender_drop c
    (some r.1, r.2)

/-- mbt_chan_receiver_drop including the NULL-handle guard (lines 361-364). -/
def mbt_chan_receiver_drop (h : Option mbt_chan) : Option mbt_chan × List Msg :=
  match h with
  | none => (none, [])
  | some c =>
    let r := chan_receiver_drop c
    (some r.1, r.2)

/-- mbt_chan_len including the NULL-handle guard (lines 311-314). -/
def mbt_chan_len (h : Option mbt_chan) : Int :=
  match h with
  | none => 0
  | some c => chan_len c

/-- mbt_chan_is_closed including the NULL-handle guard (lines 322-325). -/
def mbt_chan_is_closed (h : Option mbt_chan) : Bool :=
  match h with
  | none => true
  | some c => chan_is_closed c

/-- State of struct mbt_bcast (lines 389-398).  The subscriber array with
its len and cap bookkeeping is modelled as the list of its live entries;
entries are channel pointers and may in principle be NULL (mbt_bcast_send
skips NULL entries). -/
structure mbt_bcast where
  destroyed : Bool
  closed : Bool
  senders : Int
  capacity : Int
  subs : List (Option mbt_chan)
deriving DecidableEq, Repr

/-- mbt_bcast_new (lines 429-445). -/
def mbt_bcast_new (capacity : Int) : mbt_bcast :=
  let capacity := if capacity ≤ 0 then 1 else capacity
  { destroyed := false, closed := false, senders := 1,
    capacity := capacity, subs := [] }

/-- mbt_bcast_sender_clone (lines 447-455). -/
def mbt_bcast_sender_clone (b : mbt_bcast) : mbt_bcast :=
  if b.destroyed = true then b else { b with senders := b.senders + 1 }

/-- mbt_bcast_add_subscriber_locked (lines 481-493) on the
realloc-success path: append the channel to the subscriber array. -/
def mbt_bcast_add_subscriber_locked (b : mbt_bcast) (ch : mbt_chan) :
    mbt_bcast :=
  { b with subs := b.subs ++ [some ch] }

/-- mbt_bcast_subscribe (lines 495-520): read the closed flag and the
capacity under the hub lock, create the channel outside the lock, then
either hand it back sender-dropped (hub closed) or re-check and register
it.  Allocation always succeeds in the model, so the not-ok branch of
mbt_bcast_add_subscriber_locked does not arise. -/
def mbt_bcast_subscribe (b : mbt_bcast) : mbt_bcast × mbt_chan :=
  let closed := b.destroyed = true ∨ b.closed = true
  let cap := b.capacity
  let ch := mbt_chan_new cap
  if closed then
    (b, (chan_sender_drop ch).1)
  else if b.destroyed = true ∨ b.closed = true then
    (b, (chan_sender_drop ch).1)
  else
    (mbt_bcast_add_subscriber_locked b ch, ch)

/-- The fan-out loop of mbt_bcast_send (lines 555-566): for each non-NULL
subscriber retain one reference to msg and attempt the non-blocking send.
Returns the updated subscriber list, the delivered count, the number of
increfs performed and the number of decrefs performed on msg. -/
def bcast_send_loop (subs : List (Option mbt_chan)) (msg : Msg) :
    List (Option mbt_chan) × Int × Nat × Nat :=
  match subs with
  | [] => ([], 0, 0, 0)
  | none :: rest =>
    let r := bcast_send_loop rest msg
    (none :: r.1, r.2)
  | some ch :: rest =>
    let s := chan_try_send ch msg
    let r := bcast_send_loop rest msg
    (some s.2.1 :: r.1, (if s.1 = true then 1 else 0) + r.2.1,
     1 + r.2.2.1, s.2.2 + r.2.2.2)

/-- mbt_bcast_send (lines 543-572).  Result: delivered count, new hub
state, increfs performed on msg, decrefs performed on msg (the final
decref of the hub's own reference included). -/
def mbt_bcast_send (b : mbt_bcast) (msg : Msg) : Int × mbt_bcast × Nat × Nat :=
  if b.destroyed = true ∨ b.closed = true then
    (0, b, 0, 1)
  else
    let r := bcast_send_loop b.subs msg
    (r.2.1, { b with subs := r.1 }, r.2.2.1, r.2.2.2 + 1)

/-!
Lock-event traces for the teardown paths (claim C9).  Each trace lists, in
program order, the pthread_mutex_lock / pthread_mutex_unlock calls issued
on the hub lock and on the per-subscriber channel locks (a channel lock is
identified by the subscriber's position in the list).
-/

inductive LockEv where
  | hubAcquire
  | hubRelease
  | chanAcquire (i : Nat)
  | chanRelease (i : Nat)
deriving DecidableEq, Repr

def isHubRelease : LockEv → Bool
  | .hubRelease => true
  | _ => false

def isChanAcquire : LockEv → Bool
  | .chanAcquire _ => true
  | _ => false

/-- Lock events of mbt_chan_sender_drop on channel i: one acquire/release
pair (lines 337, 353), plus a second pair from mbt_chan_destroy
(lines 124, 136) when the drop triggers destruction. -/
def chan_sender_drop_trace (i : Nat) (c : mbt_chan) : List LockEv :=
  if c.destroyed = true then [.chanAcquire i, .chanRelease i]
  else
    let senders := if 0 < c.senders then c.senders - 1 else c.senders
    if 0 < c.senders ∧ senders = 0 ∧ c.receivers = 0 then
      [.chanAcquire i, .chanRelease i, .chanAcquire i, .chanRelease i]
    else
      [.chanAcquire i, .chanRelease i]

/-- Lock events of the subscriber loop shared by mbt_bcast_cleanup
(lines 413-418) and mbt_bcast_close (lines 470-475): sender-drop every
non-NULL entry, in list order. -/
def subDropsTrace (subs : List (Option mbt_chan)) : List LockEv :=
  (subs.enum.map fun p =>
    match p.2 with
    | none => []
    | some c => chan_sender_drop_trace p.1 c).flatten

/-- Lock events of mbt_bcast_cleanup (lines 400-421): the hub lock is
taken at line 401 and released at line 419, after the subscriber loop. -/
def mbt_bcast_cleanup_trace (b : mbt_bcast) : List LockEv :=
  if b.destroyed = true then [.hubAcquire, .hubRelease]
  else .hubAcquire :: (subDropsTrace b.subs ++ [.hubRelease])

/-- Lock events of mbt_bcast_close (lines 457-479): the hub lock is taken
at line 459 and released at line 476, after the subscriber loop. -/
def mbt_bcast_close_trace (b : mbt_bcast) : List LockEv :=
  if b.destroyed = true ∨ b.closed = true then [.hubAcquire, .hubRelease]
  else .hubAcquire :: (subDropsTrace b.subs ++ [.hubRelease])

/-- Lock events of mbt_bcast_sender_drop (lines 574-590): one hub
acquire/release pair, then the cleanup when the sender count reached 0. -/
def mbt_bcast_sender_drop_trace (b : mbt_bcast) : List LockEv :=
  if b.destroyed = true then [.hubAcquire, .hubRelease]
  else
    let senders := if 0 < b.senders then b.senders - 1 else b.senders
    if senders = 0 then
      [.hubAcquire, .hubRelease] ++
        mbt_bcast_cleanup_trace { b with senders := senders }
    else
      [.hubAcquire, .hubRelease]

/-- True when some channel lock is acquired before the first release of
the hub lock, i.e. while the hub lock is still held. -/
def chanAcquireBeforeHubRelease (t : List LockEv) : Bool :=
  (t.takeWhile fun e => !isHubRelease e).any isChanAcquire

/-!
Abstraction and well-formedness of the channel state.
-/

/-- The queued slots of the ring buffer, in FIFO order: positions
head, head+1, ..., head+len-1, each taken modulo capacity. -/
def chanList (c : mbt_chan) : List (Option Msg) :=
  (List.range c.len.toNat).map fun i : Nat =>
    bufSlot c ((c.head + (i : Int)) % c.capacity)

/-- The queued payloads in FIFO order (NULL slots skipped, as the drain
loop does). -/
def chanPayloads (c : mbt_chan) : List Msg := (chanList c).filterMap id

/-- Length of the buffer the buf pointer refers to (0 for NULL). -/
def bufLen (c : mbt_chan) : Nat :=
  match c.buf with
  | none => 0
  | some b => b.length

/-- Well-formedness of a channel state; holds for every state reachable
from mbt_chan_new by channel operations. -/
def ChanWF (c : mbt_chan) : Prop :=
  1 ≤ c.capacity ∧ 0 ≤ c.len ∧ c.len ≤ c.capacity ∧
  0 ≤ c.head ∧ c.head < c.capacity ∧
  0 ≤ c.tail ∧ c.tail < c.capacity ∧
  c.tail = (c.head + c.len) % c.capacity ∧
  0 ≤ c.senders ∧ 0 ≤ c.receivers ∧
  (c.destroyed = true →
     c.closed = true ∧ c.len = 0 ∧ c.buf = none ∧
     c.senders = 0 ∧ c.receivers = 0) ∧
  (c.destroyed = false → c.buf ≠ none ∧ bufLen c = c.capacity.toNat) ∧
  (∀ i : Nat, i < c.len.toNat →
     (bufSlot c ((c.head + i) % c.capacity)).isSome = true)

instance (c : mbt_chan) : Decidable (ChanWF c) := by
  unfold ChanWF
  infer_instance

/-- The channel operations a handle holder can invoke. -/
inductive ChanOp where
  | send (m : Msg)
  | trySend (m : Msg)
  | recv
  | tryRecv
  | close
  | senderClone
  | receiverClone
  | senderDrop
  | receiverDrop
deriving DecidableEq, Repr

/-- State transition of one operation, results projected away.  A blocking
send or recv that parks forever leaves the state unchanged (the parked
thread performed no mutation). -/
def chanStep (c : mbt_chan) : ChanOp → mbt_chan
  | .send m =>
    match chan_send c m with
    | none => c
    | some r => r.2.1
  | .trySend m => (chan_try_send c m).2.1
  | .recv =>
    match chan_recv c with
    | none => c
    | some r => r.2.2
  | .tryRecv => (chan_try_recv c).2.2
  | .close => chan_close c
  | .senderClone => chan_sender_clone c
  | .receiverClone => chan_receiver_clone c
  | .senderDrop => (chan_sender_drop c).1
  | .receiverDrop => (chan_receiver_drop c).1

/-- The state after running a sequence of operations on a fresh channel. -/
def chanRun (capacity : Int) (ops : List ChanOp) : mbt_chan :=
  ops.foldl chanStep (mbt_chan_new capacity)

/-!
Arithmetic and list helper lemmas.
-/

theorem emod_add_left_cancel (cap x y : Int) :
    (x % cap + y) % cap = (x + y) % cap := by
  rw [Int.add_emod, Int.emod_emod_of_dvd _ dvd_rfl, ← Int.add_emod]

theorem ring_index_ne (cap hd i j : Int)
    (h0i : 0 ≤ i) (hij : i < j) (hj : j < cap) :
    (hd + i) % cap ≠ (hd + j) % cap := by
  intro h
  have h1 : (j - i) % cap = 0 := by
    have : j - i = (hd + j) - (hd + i) := by ring
    rw [this, Int.sub_emod, h, sub_self, Int.zero_emod]
  rw [Int.emod_eq_of_lt (by omega) (by omega)] at h1
  omega

theorem getD_set_self (l : List α) (i : Nat) (a d : α) (h : i < l.length) :
    (l.set i a).getD i d = a := by
  induction l generalizing i with
  | nil => simp at h
  | cons x xs ih =>
    cases i with
    | zero => rfl
    | succ n =>
      have h2 : n < xs.length := by
        simp only [List.length_cons] at h
        omega
      simp only [List.set, List.getD, List.getElem?_cons_succ]
      exact ih n h2

theorem getD_set_ne (l : List α) (i j : Nat) (a d : α) (h : i ≠ j) :
    (l.set i a).getD j d = l.getD j d := by
  induction l generalizing i j with
  | nil => rfl
  | cons x xs ih =>
    cases i with
    | zero =>
      cases j with
      | zero => omega
      | succ m => rfl
    | succ n =>
      cases j with
      | zero => rfl
      | succ m =>
        simp only [List.set, List.getD, List.getElem?_cons_succ]
        exact ih n m (by omega)

/-!
Specification lemmas for the shared enqueue and dequeue steps.
-/

theorem toNat_ne_of_ne {x y : Int} (hx : 0 ≤ x) (hy : 0 ≤ y) (h : x ≠ y) :
    x.toNat ≠ y.toNat := by omega

theorem chanEnqueue_spec (c : mbt_chan) (m : Msg) (hwf : ChanWF c)
    (hd : c.destroyed = false) (hlen : c.len < c.capacity) :
    ChanWF (chanEnqueue c m) ∧
    chanList (chanEnqueue c m) = chanList c ++ [some m] := by
  obtain ⟨hcap, hlen0, _, hh0, hhc, ht0, htc, htail, hs, hr, _, hndes, hslots⟩ := hwf
  obtain ⟨bne, hblen⟩ := hndes hd
  obtain ⟨b, hb⟩ : ∃ b, c.buf = some b := by
    cases hbuf : c.buf with
    | none => exact absurd hbuf bne
    | some b => exact ⟨b, rfl⟩
  have hblen' : b.length = c.capacity.toNat := by
    simpa [bufLen, hb] using hblen
  have hcap0 : (0 : Int) < c.capacity := by omega
  have hbufE : (chanEnqueue c m).buf = some (b.set c.tail.toNat (some m)) := by
    simp [chanEnqueue, hb]
  have htailNat : c.tail.toNat < b.length := by omega
  -- slots with index below len are untouched by the write at tail
  have hkeep : ∀ i : Nat, (i : Int) < c.len →
      bufSlot (chanEnqueue c m) ((c.head + i) % c.capacity) =
      bufSlot c ((c.head + i) % c.capacity) := by
    intro i hi
    have hne : (c.head + i) % c.capacity ≠ c.tail := by
      rw [htail]
      exact ring_index_ne c.capacity c.head i c.len (by omega) hi (by omega)
    have hidx0 : 0 ≤ (c.head + i) % c.capacity :=
      Int.emod_nonneg _ (by omega)
    simp only [bufSlot, hbufE, hb]
    exact getD_set_ne b c.tail.toNat ((c.head + i) % c.capacity).toNat _ _
      (fun h046 => hne (by omega))
  -- the written slot
  have hnew : bufSlot (chanEnqueue c m) c.tail = some m := by
    simp only [bufSlot, hbufE]
    exact getD_set_self b c.tail.toNat (some m) none htailNat
  have hE : (chanEnqueue c m).head = c.head := rfl
  have hEcap : (chanEnqueue c m).capacity = c.capacity := rfl
  have hElen : (chanEnqueue c m).len = c.len + 1 := rfl
  have hEtail : (chanEnqueue c m).tail = (c.head + (c.len + 1)) % c.capacity := by
    show (c.tail + 1) % c.capacity = _
    rw [htail, emod_add_left_cancel]
    ring_nf
  have hlistE : chanList (chanEnqueue c m) = chanList c ++ [some m] := by
    unfold chanList
    rw [hE, hEcap, hElen]
    have hln : (c.len + 1).toNat = c.len.toNat + 1 := by omega
    rw [hln, List.range_succ, List.map_append]
    congr 1
    · exact List.map_congr_left fun i hi => by
        have hi' : (i : Int) < c.len := by
          have := List.mem_range.mp hi
          omega
        exact hkeep i hi'
    · have hlcast : ((c.len.toNat : Nat) : Int) = c.len := by omega
      simp only [List.map_cons, List.map_nil]
      rw [hlcast, ← htail, hnew]
  refine ⟨?_, hlistE⟩
  refine ⟨hcap, by omega, by omega, hh0, hhc, ?_, ?_, hEtail, hs, hr, ?_, ?_, ?_⟩
  · exact Int.emod_nonneg _ (by omega)
  · exact Int.emod_lt_of_pos _ hcap0
  · intro hcontra
    simp only [chanEnqueue] at hcontra
    rw [hd] at hcontra
    exact absurd hcontra (by simp)
  · intro _
    constructor
    · rw [hbufE]; simp
    · simp only [bufLen, hbufE, List.length_set, hblen', hEcap]
  · intro i hi
    have hln : ((c.len + 1).toNat) = c.len.toNat + 1 := by omega
    rw [hElen, hln] at hi
    rcases Nat.lt_succ_iff_lt_or_eq.mp hi with hlt | heq
    · rw [hE, hEcap, hkeep i (by omega)]
      exact hslots i hlt
    · subst heq
      have hlcast : ((c.len.toNat : Nat) : Int) = c.len := by omega
      rw [hE, hEcap, hlcast, ← htail, hnew]
      rfl

theorem chanDequeue_spec (c : mbt_chan) (hwf : ChanWF c)
    (hd : c.destroyed = false) (hlen : 0 < c.len) :
    ChanWF (chanDequeue c).2 ∧
    chanList c = bufSlot c c.head :: chanList (chanDequeue c).2 ∧
    (bufSlot c c.head).isSome = true := by
  obtain ⟨hcap, hlen0, hlencap, hh0, hhc, ht0, htc, htail, hs, hr, _, hndes,
    hslots⟩ := hwf
  obtain ⟨bne, hblen⟩ := hndes hd
  obtain ⟨b, hb⟩ : ∃ b, c.buf = some b := by
    cases hbuf : c.buf with
    | none => exact absurd hbuf bne
    | some b => exact ⟨b, rfl⟩
  have hblen' : b.length = c.capacity.toNat := by
    simpa [bufLen, hb] using hblen
  have hcap0 : (0 : Int) < c.capacity := by omega
  have hDbuf : (chanDequeue c).2.buf = some (b.set c.head.toNat none) := by
    simp [chanDequeue, hb]
  have hDhead : (chanDequeue c).2.head = (c.head + 1) % c.capacity := rfl
  have hDlen : (chanDequeue c).2.len = c.len - 1 := rfl
  have hDcap : (chanDequeue c).2.capacity = c.capacity := rfl
  have hheadmod : c.head % c.capacity = c.head := Int.emod_eq_of_lt hh0 hhc
  -- reading any later queued slot is unaffected by clearing the head slot
  have hkeep : ∀ i : Nat, (i : Int) < c.len - 1 →
      bufSlot (chanDequeue c).2 (((chanDequeue c).2.head + i) % c.capacity) =
      bufSlot c ((c.head + (1 + (i : Int))) % c.capacity) := by
    intro i hi
    have hidx : ((chanDequeue c).2.head + (i : Int)) % c.capacity =
        (c.head + (1 + (i : Int))) % c.capacity := by
      rw [hDhead, emod_add_left_cancel]
      ring_nf
    rw [hidx]
    have hne : (c.head + (1 + (i : Int))) % c.capacity ≠ c.head := by
      have h0 := ring_index_ne c.capacity c.head 0 (1 + (i : Int))
        le_rfl (by omega) (by omega)
      rw [add_zero, hheadmod] at h0
      exact fun h => h0 h.symm
    have hidx0 : 0 ≤ (c.head + (1 + (i : Int))) % c.capacity :=
      Int.emod_nonneg _ (by omega)
    simp only [bufSlot, hDbuf, hb]
    exact getD_set_ne b c.head.toNat
      ((c.head + (1 + (i : Int))) % c.capacity).toNat _ _
      (fun h047 => hne (by omega))
  have hheadSome : (bufSlot c c.head).isSome = true := by
    have h0 := hslots 0 (by omega)
    simpa [hheadmod] using h0
  have hlist : chanList c = bufSlot c c.head :: chanList (chanDequeue c).2 := by
    unfold chanList
    rw [hDhead, hDcap, hDlen]
    have hln : c.len.toNat = (c.len - 1).toNat + 1 := by omega
    rw [hln, List.range_succ_eq_map, List.map_cons, List.map_map]
    congr 1
    · simp [hheadmod]
    · refine List.map_congr_left fun i hi => ?_
      have hi' : (i : Int) < c.len - 1 := by
        have := List.mem_range.mp hi
        omega
      have hsucc : ((Nat.succ i : Nat) : Int) = 1 + (i : Int) := by
        push_cast
        ring
      calc (fun i : Nat => bufSlot c ((c.head + (i : Int)) % c.capacity))
              (Nat.succ i)
          = bufSlot c ((c.head + (1 + (i : Int))) % c.capacity) := by
            simp only [hsucc]
        _ = bufSlot (chanDequeue c).2
              ((((c.head + 1) % c.capacity) + (i : Int)) % c.capacity) := by
            rw [← hkeep i hi', hDhead]
  refine ⟨?_, hlist, hheadSome⟩
  refine ⟨hcap, by omega, by omega, ?_, ?_, ht0, htc, ?_, hs, hr, ?_, ?_, ?_⟩
  · exact Int.emod_nonneg _ (by omega)
  · exact Int.emod_lt_of_pos _ hcap0
  · show c.tail = ((chanDequeue c).2.head + (c.len - 1)) % c.capacity
    rw [hDhead, emod_add_left_cancel, htail]
    ring_nf
  · intro hcontra
    have : (chanDequeue c).2.destroyed = c.destroyed := rfl
    rw [this, hd] at hcontra
    exact absurd hcontra (by simp)
  · intro _
    constructor
    · rw [hDbuf]; simp
    · simp only [bufLen, hDbuf, List.length_set, hblen', hDcap]
  · intro i hi
    rw [hDlen] at hi
    have hi' : (i : Int) < c.len - 1 := by omega
    rw [hDcap, hkeep i hi']
    have hsucc : (1 + (i : Int)) = ((i + 1 : Nat) : Int) := by
      push_cast
      ring
    rw [hsucc]
    exact hslots (i + 1) (by omega)

/-!
Characterization of the send and receive entry points in terms of the
shared enqueue and dequeue steps.
-/

theorem chan_try_send_fail (c : mbt_chan) (m : Msg)
    (h : c.destroyed = true ∨ c.closed = true ∨ c.receivers = 0 ∨
         c.len = c.capacity) :
    chan_try_send c m = (false, c, 1) := by
  unfold chan_try_send
  rw [if_pos h]

theorem chan_try_send_ok (c : mbt_chan) (m : Msg)
    (h1 : c.destroyed = false) (h2 : c.closed = false)
    (h3 : c.receivers ≠ 0) (h4 : c.len ≠ c.capacity) :
    chan_try_send c m = (true, chanEnqueue c m, 0) := by
  unfold chan_try_send
  rw [if_neg (by simp [h1, h2, h3, h4])]

theorem chan_send_ok (c : mbt_chan) (m : Msg)
    (h1 : c.destroyed = false) (h2 : c.closed = false)
    (h3 : c.receivers ≠ 0) (h4 : c.len ≠ c.capacity) :
    chan_send c m = some (true, chanEnqueue c m, 0) := by
  unfold chan_send
  rw [if_neg (by simp [h4]), if_neg (by simp [h1, h2, h3])]

theorem chan_send_success_elim (c : mbt_chan) (m : Msg) (c' : mbt_chan)
    (k : Nat) (hwf : ChanWF c) (h : chan_send c m = some (true, c', k)) :
    c.destroyed = false ∧ c.closed = false ∧ c.receivers ≠ 0 ∧
    c.len < c.capacity ∧ c' = chanEnqueue c m ∧ k = 0 := by
  have hr0 : 0 ≤ c.receivers := hwf.2.2.2.2.2.2.2.2.2.1
  have hlencap : c.len ≤ c.capacity := hwf.2.2.1
  unfold chan_send at h
  split_ifs at h with hb hf
  · exact absurd h (by simp)
  · simp only [Option.some.injEq, Prod.mk.injEq] at h
    obtain ⟨-, hc', hk⟩ := h
    push_neg at hf
    have hd : c.destroyed = false := by
      cases hde : c.destroyed with
      | false => rfl
      | true => exact absurd hde hf.1
    have hc : c.closed = false := by
      cases hcl : c.closed with
      | false => rfl
      | true => exact absurd hcl hf.2.1
    have hrne : c.receivers ≠ 0 := hf.2.2
    have hlt : c.len < c.capacity := by
      by_contra hge
      have hle : c.len = c.capacity := by omega
      exact hb ⟨by simp [hd], by simp [hc], by omega, hle⟩
    exact ⟨hd, hc, hrne, hlt, hc'.symm, hk.symm⟩

theorem chan_try_recv_fail (c : mbt_chan)
    (h : c.destroyed = true ∨ c.len = 0) :
    chan_try_recv c = (false, none, c) := by
  unfold chan_try_recv
  rw [if_pos h]

theorem chan_try_recv_ok (c : mbt_chan)
    (h1 : c.destroyed = false) (h2 : c.len ≠ 0) :
    chan_try_recv c = (true, (chanDequeue c).1, (chanDequeue c).2) := by
  unfold chan_try_recv
  rw [if_neg (by simp [h1, h2])]

theorem chan_recv_ok (c : mbt_chan)
    (h1 : c.destroyed = false) (h2 : c.len ≠ 0) :
    chan_recv c = some (true, (chanDequeue c).1, (chanDequeue c).2) := by
  unfold chan_recv
  rw [if_neg (by simp [h2]), if_neg (by simp [h1, h2])]

/-- Once the channel is closed, mbt_chan_recv can no longer park on
can_recv and behaves exactly like mbt_chan_try_recv. -/
theorem chan_recv_eq_try_recv_of_closed (c : mbt_chan)
    (h : c.closed = true) :
    chan_recv c = some (chan_try_recv c) := by
  unfold chan_recv chan_try_recv
  rw [if_neg (by simp [h])]
  split_ifs <;> rfl

/-!
Specification of the drain loop and of destruction.
-/

theorem dropLoopN_spec (cap : Int) (hcap : 0 < cap) :
    ∀ (n : Nat) (buf : List (Option Msg)) (hd : Int),
      0 ≤ hd → hd < cap → (n : Int) ≤ cap → buf.length = cap.toNat →
      (dropLoopN buf hd cap n).1.length = buf.length ∧
      (dropLoopN buf hd cap n).2.2 =
        ((List.range n).map fun i : Nat =>
          buf.getD ((hd + (i : Int)) % cap).toNat none).filterMap id := by
  intro n
  induction n with
  | zero => simp [dropLoopN]
  | succ k ih =>
    intro buf hd hh0 hhc hn hlen
    have hh1a : 0 ≤ (hd + 1) % cap := Int.emod_nonneg _ (by omega)
    have hh1b : (hd + 1) % cap < cap := Int.emod_lt_of_pos _ hcap
    have hlen1 : (buf.set hd.toNat none).length = cap.toNat := by
      rw [List.length_set]
      exact hlen
    have hrec := ih (buf.set hd.toNat none) ((hd + 1) % cap) hh1a hh1b
      (by omega) hlen1
    have hhd : hd % cap = hd := Int.emod_eq_of_lt hh0 hhc
    -- reading slots after the head write: untouched
    have hread : ∀ i : Nat, i < k →
        (buf.set hd.toNat none).getD
          ((((hd + 1) % cap) + (i : Int)) % cap).toNat none =
        buf.getD ((hd + ((i : Nat) + 1 : Int)) % cap).toNat none := by
      intro i hik
      have hidx : (((hd + 1) % cap) + (i : Int)) % cap =
          (hd + ((i : Nat) + 1 : Int)) % cap := by
        rw [emod_add_left_cancel]
        ring_nf
      rw [hidx]
      have hne : (hd + ((i : Nat) + 1 : Int)) % cap ≠ hd := by
        have h0 := ring_index_ne cap hd 0 ((i : Nat) + 1 : Int)
          le_rfl (by omega) (by omega)
        rw [add_zero, hhd] at h0
        exact fun h => h0 h.symm
      have hidx0 : 0 ≤ (hd + ((i : Nat) + 1 : Int)) % cap :=
        Int.emod_nonneg _ (by omega)
      exact getD_set_ne buf hd.toNat _ _ _ (fun h048 => hne (by omega))
    constructor
    · show (dropLoopN (buf.set hd.toNat none) ((hd + 1) % cap) cap k).1.length =
          buf.length
      rw [hrec.1, List.length_set]
    · show (match buf.getD hd.toNat none with
            | some m => m :: (dropLoopN (buf.set hd.toNat none)
                ((hd + 1) % cap) cap k).2.2
            | none => (dropLoopN (buf.set hd.toNat none)
                ((hd + 1) % cap) cap k).2.2) = _
      rw [hrec.2]
      rw [List.range_succ_eq_map, List.map_cons, List.map_map,
        List.filterMap_cons]
      have hzero : buf.getD ((hd + ((0 : Nat) : Int)) % cap).toNat none =
          buf.getD hd.toNat none := by
        norm_num [hhd]
      rw [hzero]
      have hmapeq :
          (List.range k).map ((fun i : Nat =>
              buf.getD ((hd + (i : Int)) % cap).toNat none) ∘ Nat.succ) =
          (List.range k).map (fun i : Nat =>
              (buf.set hd.toNat none).getD
                ((((hd + 1) % cap) + (i : Int)) % cap).toNat none) := by
        refine List.map_congr_left fun i hik => ?_
        have hik' : i < k := List.mem_range.mp hik
        have : ((Nat.succ i : Nat) : Int) = ((i : Nat) + 1 : Int) := by
          push_cast
          ring
        simp only [Function.comp, this]
        exact (hread i hik').symm
      rw [hmapeq]
      cases buf.getD hd.toNat none <;> rfl

theorem chan_drop_messages_eq (c : mbt_chan) (b : List (Option Msg))
    (hb : c.buf = some b) (hcap : 0 < c.capacity) :
    chan_drop_messages c =
      ({ c with buf := some (dropLoopN b c.head c.capacity c.len.toNat).1,
                head := 0, tail := 0,
                len := c.len - (c.len.toNat : Int) },
       (dropLoopN b c.head c.capacity c.len.toNat).2.2) := by
  obtain ⟨d, cl, se, re, cap, len, hd1, tl, buf⟩ := c
  dsimp only at hb hcap ⊢
  subst hb
  unfold chan_drop_messages
  dsimp only
  rw [if_neg (by omega : ¬cap ≤ 0)]

theorem chan_drop_messages_spec (c : mbt_chan) (b : List (Option Msg))
    (hb : c.buf = some b) (hcap : 0 < c.capacity) (hlen0 : 0 ≤ c.len)
    (hlencap : c.len ≤ c.capacity) (hh0 : 0 ≤ c.head)
    (hhc : c.head < c.capacity) (hblen : b.length = c.capacity.toNat) :
    (chan_drop_messages c).1 =
      { c with buf := some (dropLoopN b c.head c.capacity c.len.toNat).1,
               head := 0, tail := 0, len := 0 } ∧
    bufLen (chan_drop_messages c).1 = bufLen c ∧
    (chan_drop_messages c).2 = chanPayloads c := by
  have hloop := dropLoopN_spec c.capacity hcap c.len.toNat b c.head hh0 hhc
    (by omega) hblen
  have heq := chan_drop_messages_eq c b hb hcap
  have hlenz : c.len - (c.len.toNat : Int) = 0 := by omega
  refine ⟨?_, ?_, ?_⟩
  · rw [heq]
    dsimp only
    rw [hlenz]
  · rw [heq]
    simp only [bufLen, hb, hloop.1, hblen]
  · rw [heq]
    dsimp only
    rw [hloop.2]
    unfold chanPayloads chanList
    congr 1
    refine List.map_congr_left fun i _ => ?_
    simp only [bufSlot, hb]

theorem chan_destroy_eq (c : mbt_chan) (b : List (Option Msg))
    (hb : c.buf = some b) (hcap : 0 < c.capacity) (hlen0 : 0 ≤ c.len)
    (hlencap : c.len ≤ c.capacity) (hh0 : 0 ≤ c.head)
    (hhc : c.head < c.capacity) (hblen : b.length = c.capacity.toNat)
    (hd : c.destroyed = false) :
    (chan_destroy c).1 = mbt_chan.mk true true c.senders c.receivers
      c.capacity 0 0 0 none ∧
    (chan_destroy c).2 = chanPayloads c := by
  unfold chan_destroy
  rw [if_neg (by simp [hd])]
  have hspec := chan_drop_messages_spec
    { c with destroyed := true, closed := true } b hb hcap hlen0 hlencap
    hh0 hhc hblen
  obtain ⟨h1, h2, h3⟩ := hspec
  constructor
  · dsimp only
    rw [h1]
  · dsimp only
    rw [h3]
    unfold chanPayloads chanList
    rfl


/-!
Preservation of well-formedness by every operation.
-/

theorem ChanWF_destroyed_mk (se re cap : Int) (hcap : 1 ≤ cap)
    (hs : se = 0) (hr : re = 0) :
    ChanWF (mbt_chan.mk true true se re cap 0 0 0 none) := by
  subst hs
  subst hr
  unfold ChanWF
  dsimp only
  refine ⟨hcap, le_rfl, by omega, le_rfl, by omega, le_rfl, by omega, ?_,
    le_rfl, le_rfl, ?_, ?_, ?_⟩
  · show (0 : Int) = (0 + 0) % cap
    simp
  · intro _
    exact ⟨rfl, rfl, rfl, rfl, rfl⟩
  · intro h
    exact absurd h (by simp)
  · intro i hi
    simp at hi

theorem mbt_chan_new_WF (capacity : Int) : ChanWF (mbt_chan_new capacity) := by
  unfold mbt_chan_new ChanWF
  by_cases h : capacity ≤ 0 <;> simp only [h, if_true, if_false, reduceIte]
  all_goals
    refine ⟨by omega, le_rfl, by omega, le_rfl, by omega, le_rfl, by omega,
      by simp, by omega, by omega, ?_, ?_, ?_⟩
  · intro hc
    exact absurd hc (by simp)
  · intro _
    exact ⟨by simp [bufLen], by simp [bufLen]⟩
  · intro i hi
    simp at hi
  · intro hc
    exact absurd hc (by simp)
  · intro _
    exact ⟨by simp [bufLen], by simp [bufLen]⟩
  · intro i hi
    simp at hi

theorem chan_close_WF (c : mbt_chan) (hwf : ChanWF c) :
    ChanWF (chan_close c) := by
  obtain ⟨hcap, hlen0, hlencap, hh0, hhc, ht0, htc, htail, hs, hr, hdes,
    hndes, hslots⟩ := hwf
  unfold chan_close
  split_ifs with h1
  · exact ⟨hcap, hlen0, hlencap, hh0, hhc, ht0, htc, htail, hs, hr, hdes,
      hndes, hslots⟩
  · exact ⟨hcap, hlen0, hlencap, hh0, hhc, ht0, htc, htail, hs, hr,
      fun h => absurd h h1, fun _ => hndes (by simpa using h1), hslots⟩

theorem chan_sender_clone_WF (c : mbt_chan) (hwf : ChanWF c) :
    ChanWF (chan_sender_clone c) := by
  obtain ⟨hcap, hlen0, hlencap, hh0, hhc, ht0, htc, htail, hs, hr, hdes,
    hndes, hslots⟩ := hwf
  unfold chan_sender_clone
  split_ifs with h1
  · exact ⟨hcap, hlen0, hlencap, hh0, hhc, ht0, htc, htail, hs, hr, hdes,
      hndes, hslots⟩
  · exact ⟨hcap, hlen0, hlencap, hh0, hhc, ht0, htc, htail,
      show (0 : Int) ≤ c.senders + 1 from by omega, hr,
      fun h => absurd h h1, fun _ => hndes (by simpa using h1), hslots⟩

theorem chan_receiver_clone_WF (c : mbt_chan) (hwf : ChanWF c) :
    ChanWF (chan_receiver_clone c) := by
  obtain ⟨hcap, hlen0, hlencap, hh0, hhc, ht0, htc, htail, hs, hr, hdes,
    hndes, hslots⟩ := hwf
  unfold chan_receiver_clone
  split_ifs with h1
  · exact ⟨hcap, hlen0, hlencap, hh0, hhc, ht0, htc, htail, hs, hr, hdes,
      hndes, hslots⟩
  · exact ⟨hcap, hlen0, hlencap, hh0, hhc, ht0, htc, htail, hs,
      show (0 : Int) ≤ c.receivers + 1 from by omega,
      fun h => absurd h h1, fun _ => hndes (by simpa using h1), hslots⟩

theorem chan_sender_drop_WF (c : mbt_chan) (hwf : ChanWF c) :
    ChanWF (chan_sender_drop c).1 := by
  obtain ⟨hcap, hlen0, hlencap, hh0, hhc, ht0, htc, htail, hs, hr, hdes,
    hndes, hslots⟩ := hwf
  unfold chan_sender_drop
  by_cases hd : c.destroyed = true
  · rw [if_pos hd]
    exact ⟨hcap, hlen0, hlencap, hh0, hhc, ht0, htc, htail, hs, hr, hdes,
      hndes, hslots⟩
  · rw [if_neg hd]
    have hd' : c.destroyed = false := by simpa using hd
    dsimp only
    by_cases hclean : 0 < c.senders ∧
        (if 0 < c.senders then c.senders - 1 else c.senders) = 0 ∧
        c.receivers = 0
    · rw [if_pos hclean]
      obtain ⟨bne, hblen⟩ := hndes hd'
      obtain ⟨b, hb⟩ : ∃ b, c.buf = some b := by
        cases hbuf : c.buf with
        | none => exact absurd hbuf bne
        | some b => exact ⟨b, rfl⟩
      have hblen' : b.length = c.capacity.toNat := by
        simpa [bufLen, hb] using hblen
      have heq := chan_destroy_eq
        { c with senders := if 0 < c.senders then c.senders - 1 else c.senders,
                 closed := if (if 0 < c.senders then c.senders - 1
                              else c.senders) = 0 then true else c.closed }
        b hb hcap hlen0 hlencap hh0 hhc hblen' hd'
      rw [heq.1]
      exact ChanWF_destroyed_mk _ _ _ hcap hclean.2.1 hclean.2.2
    · rw [if_neg hclean]
      refine ⟨hcap, hlen0, hlencap, hh0, hhc, ht0, htc, htail, ?_, hr,
        ?_, ?_, ?_⟩
      · dsimp only
        split_ifs <;> omega
      · intro h
        exact absurd h (by simpa using hd)
      · intro _
        exact hndes hd'
      · intro i hi
        exact hslots i hi

theorem chan_receiver_drop_WF (c : mbt_chan) (hwf : ChanWF c) :
    ChanWF (chan_receiver_drop c).1 := by
  obtain ⟨hcap, hlen0, hlencap, hh0, hhc, ht0, htc, htail, hs, hr, hdes,
    hndes, hslots⟩ := hwf
  unfold chan_receiver_drop
  by_cases hd : c.destroyed = true
  · rw [if_pos hd]
    exact ⟨hcap, hlen0, hlencap, hh0, hhc, ht0, htc, htail, hs, hr, hdes,
      hndes, hslots⟩
  · rw [if_neg hd]
    have hd' : c.destroyed = false := by simpa using hd
    obtain ⟨bne, hblen⟩ := hndes hd'
    obtain ⟨b, hb⟩ : ∃ b, c.buf = some b := by
      cases hbuf : c.buf with
      | none => exact absurd hbuf bne
      | some b => exact ⟨b, rfl⟩
    have hblen' : b.length = c.capacity.toNat := by
      simpa [bufLen, hb] using hblen
    dsimp only
    by_cases hz : (if 0 < c.receivers then c.receivers - 1
        else c.receivers) = 0
    · rw [if_pos hz]
      have hdm := chan_drop_messages_spec
        { c with receivers := if 0 < c.receivers then c.receivers - 1
                              else c.receivers,
                 closed := true }
        b hb hcap hlen0 hlencap hh0 hhc hblen'
      by_cases hclean : 0 < c.receivers ∧
          (if 0 < c.receivers then c.receivers - 1 else c.receivers) = 0 ∧
          c.senders = 0
      · rw [if_pos hclean]
        dsimp only
        -- destruction runs on the drained state
        have hmid := hdm.1
        rw [hmid]
        have hloopLen :
            (dropLoopN b c.head c.capacity c.len.toNat).1.length =
            c.capacity.toNat := by
          have := (dropLoopN_spec c.capacity hcap c.len.toNat b c.head hh0
            hhc (by omega) hblen').1
          omega
        have heq := chan_destroy_eq
          { c with receivers := if 0 < c.receivers then c.receivers - 1
                                else c.receivers,
                   closed := true,
                   buf := some (dropLoopN b c.head c.capacity c.len.toNat).1,
                   head := 0, tail := 0, len := 0 }
          (dropLoopN b c.head c.capacity c.len.toNat).1 rfl hcap
          (le_refl (0 : Int)) (show (0 : Int) ≤ c.capacity from by omega)
          (le_refl (0 : Int)) (show (0 : Int) < c.capacity from by omega)
          hloopLen hd'
        rw [heq.1]
        exact ChanWF_destroyed_mk _ _ _ hcap hclean.2.2 hz
      · rw [if_neg hclean]
        rw [hdm.1]
        unfold ChanWF
        dsimp only
        refine ⟨hcap, le_rfl, by omega, le_rfl, by omega, le_rfl, by omega,
          by simp, hs, by split_ifs <;> omega, ?_, ?_, ?_⟩
        · intro h
          exact absurd h (by simpa using hd)
        · intro _
          constructor
          · simp
          · have := (dropLoopN_spec c.capacity hcap c.len.toNat b c.head hh0
              hhc (by omega) hblen').1
            simp only [bufLen]
            omega
        · intro i hi
          simp at hi
    · rw [if_neg hz]
      have hnoclean : ¬(0 < c.receivers ∧
          (if 0 < c.receivers then c.receivers - 1 else c.receivers) = 0 ∧
          c.senders = 0) := by
        intro h
        exact hz h.2.1
      rw [if_neg hnoclean]
      refine ⟨hcap, hlen0, hlencap, hh0, hhc, ht0, htc, htail, hs, ?_,
        ?_, ?_, ?_⟩
      · dsimp only
        split_ifs <;> omega
      · intro h
        exact absurd h (by simpa using hd)
      · intro _
        exact hndes hd'
      · intro i hi
        exact hslots i hi

theorem chanStep_WF (c : mbt_chan) (op : ChanOp) (hwf : ChanWF c) :
    ChanWF (chanStep c op) := by
  have hr0 : 0 ≤ c.receivers := hwf.2.2.2.2.2.2.2.2.2.1
  have hlencap : c.len ≤ c.capacity := hwf.2.2.1
  cases op with
  | send m =>
    show ChanWF (match chan_send c m with | none => c | some r => r.2.1)
    unfold chan_send
    split_ifs with hblock hfail
    · exact hwf
    · exact hwf
    · push_neg at hfail
      have hd : c.destroyed = false := by
        cases hde : c.destroyed with
        | false => rfl
        | true => exact absurd hde hfail.1
      have hc : c.closed = false := by
        cases hcl : c.closed with
        | false => rfl
        | true => exact absurd hcl hfail.2.1
      have hlt : c.len < c.capacity := by
        by_contra hge
        exact hblock ⟨by simp [hd], by simp [hc], by omega,
          by omega⟩
      exact (chanEnqueue_spec c m hwf hd hlt).1
  | trySend m =>
    show ChanWF (chan_try_send c m).2.1
    unfold chan_try_send
    split_ifs with hfail
    · exact hwf
    · push_neg at hfail
      have hd : c.destroyed = false := by
        cases hde : c.destroyed with
        | false => rfl
        | true => exact absurd hde hfail.1
      have hlt : c.len < c.capacity := by
        have := hfail.2.2.2
        omega
      exact (chanEnqueue_spec c m hwf hd hlt).1
  | recv =>
    show ChanWF (match chan_recv c with | none => c | some r => r.2.2)
    unfold chan_recv
    split_ifs with hblock hfail
    · exact hwf
    · exact hwf
    · push_neg at hfail
      have hd : c.destroyed = false := by
        cases hde : c.destroyed with
        | false => rfl
        | true => exact absurd hde hfail.1
      have hpos : 0 < c.len := by
        have hlen0 : 0 ≤ c.len := hwf.2.1
        have := hfail.2
        omega
      exact (chanDequeue_spec c hwf hd hpos).1
  | tryRecv =>
    show ChanWF (chan_try_recv c).2.2
    unfold chan_try_recv
    split_ifs with hfail
    · exact hwf
    · push_neg at hfail
      have hd : c.destroyed = false := by
        cases hde : c.destroyed with
        | false => rfl
        | true => exact absurd hde hfail.1
      have hpos : 0 < c.len := by
        have hlen0 : 0 ≤ c.len := hwf.2.1
        have := hfail.2
        omega
      exact (chanDequeue_spec c hwf hd hpos).1
  | close => exact chan_close_WF c hwf
  | senderClone => exact chan_sender_clone_WF c hwf
  | receiverClone => exact chan_receiver_clone_WF c hwf
  | senderDrop => exact chan_sender_drop_WF c hwf
  | receiverDrop => exact chan_receiver_drop_WF c hwf

/-- Every state reachable from mbt_chan_new is well-formed. -/
theorem chanRun_WF (capacity : Int) (ops : List ChanOp) :
    ChanWF (chanRun capacity ops) := by
  unfold chanRun
  induction ops using List.reverseRecOn with
  | nil => exact mbt_chan_new_WF capacity
  | append_singleton ops op ih =>
    rw [List.foldl_append]
    exact chanStep_WF _ op ih

/-!
The capacity field is fixed: no operation ever writes it.
-/

theorem chan_drop_messages_capacity (c : mbt_chan) :
    (chan_drop_messages c).1.capacity = c.capacity := by
  obtain ⟨d, cl, se, re, cap, len, hd1, tl, buf⟩ := c
  unfold chan_drop_messages
  cases buf with
  | none => rfl
  | some b =>
    dsimp only
    split_ifs <;> rfl

theorem chan_destroy_capacity (c : mbt_chan) :
    (chan_destroy c).1.capacity = c.capacity := by
  unfold chan_destroy
  split_ifs
  · rfl
  · show (chan_drop_messages _).1.capacity = c.capacity
    rw [chan_drop_messages_capacity]

theorem chanStep_capacity (c : mbt_chan) (op : ChanOp) :
    (chanStep c op).capacity = c.capacity := by
  cases op with
  | send m =>
    show (match chan_send c m with
          | none => c | some r => r.2.1).capacity = c.capacity
    unfold chan_send
    split_ifs <;> rfl
  | trySend m =>
    show (chan_try_send c m).2.1.capacity = c.capacity
    unfold chan_try_send
    split_ifs <;> rfl
  | recv =>
    show (match chan_recv c with
          | none => c | some r => r.2.2).capacity = c.capacity
    unfold chan_recv
    split_ifs <;> rfl
  | tryRecv =>
    show (chan_try_recv c).2.2.capacity = c.capacity
    unfold chan_try_recv
    split_ifs <;> rfl
  | close =>
    unfold chanStep chan_close
    split_ifs <;> rfl
  | senderClone =>
    unfold chanStep chan_sender_clone
    split_ifs <;> rfl
  | receiverClone =>
    unfold chanStep chan_receiver_clone
    split_ifs <;> rfl
  | senderDrop =>
    show (chan_sender_drop c).1.capacity = c.capacity
    unfold chan_sender_drop
    dsimp only
    split_ifs <;>
      simp only [chan_destroy_capacity, chan_drop_messages_capacity]
  | receiverDrop =>
    show (chan_receiver_drop c).1.capacity = c.capacity
    unfold chan_receiver_drop
    dsimp only
    split_ifs <;>
      simp only [chan_destroy_capacity, chan_drop_messages_capacity]

theorem chanRun_capacity (capacity : Int) (ops : List ChanOp) :
    (chanRun capacity ops).capacity =
      (if capacity ≤ 0 then 1 else capacity) := by
  unfold chanRun
  induction ops using List.reverseRecOn with
  | nil => rfl
  | append_singleton ops op ih =>
    rw [List.foldl_append]
    show (chanStep _ op).capacity = _
    rw [chanStep_capacity]
    exact ih

/-!
Further helper lemmas and definitions used by the claim theorems.
-/

/-- A blocking or non-blocking receive, chosen by the first argument; used
to state claims that hold for recv and try_recv alike. -/
def recvOp (blocking : Bool) (c : mbt_chan) :
    Option (Bool × Option Msg × mbt_chan) :=
  if blocking = true then chan_recv c else some (chan_try_recv c)

/-- n successive mbt_chan_try_recv calls, collecting each (ok, payload). -/
def tryRecvN (c : mbt_chan) : Nat → List (Bool × Option Msg) × mbt_chan
  | 0 => ([], c)
  | n + 1 =>
    let r := chan_try_recv c
    let rest := tryRecvN r.2.2 n
    ((r.1, r.2.1) :: rest.1, rest.2)

/-- The acceptance test of mbt_chan_try_send (line 252), as a predicate:
the attempt succeeds unless the channel is destroyed, closed, receiverless
or full. -/
def chanAccepts (c : mbt_chan) : Bool :=
  if c.destroyed = true ∨ c.closed = true ∨ c.receivers = 0 ∨
     c.len = c.capacity then false else true

theorem chan_try_send_fst (c : mbt_chan) (m : Msg) :
    (chan_try_send c m).1 = chanAccepts c := by
  unfold chan_try_send chanAccepts
  split_ifs <;> rfl

theorem chan_try_send_released (c : mbt_chan) (m : Msg) :
    (chan_try_send c m).2.2 = if chanAccepts c = true then 0 else 1 := by
  unfold chan_try_send chanAccepts
  by_cases h : c.destroyed = true ∨ c.closed = true ∨ c.receivers = 0 ∨
      c.len = c.capacity
  · simp only [if_pos h]
    rfl
  · simp only [if_neg h]
    rfl

theorem recvOp_ok (blocking : Bool) (c : mbt_chan)
    (hd : c.destroyed = false) (hlen : c.len ≠ 0) :
    recvOp blocking c =
      some (true, (chanDequeue c).1, (chanDequeue c).2) := by
  cases blocking with
  | true => simpa [recvOp] using chan_recv_ok c hd hlen
  | false =>
    simp only [recvOp, if_neg (by simp : ¬(false = true))]
    rw [chan_try_recv_ok c hd hlen]

theorem chan_drop_messages_destroyed (c : mbt_chan) :
    (chan_drop_messages c).1.destroyed = c.destroyed := by
  obtain ⟨d, cl, se, re, cap, len, hd1, tl, buf⟩ := c
  unfold chan_drop_messages
  cases buf with
  | none => rfl
  | some b =>
    dsimp only
    split_ifs <;> rfl

/-- mbt_chan_destroy always leaves the destroyed flag set. -/
theorem chan_destroy_destroyed (c : mbt_chan) :
    (chan_destroy c).1.destroyed = true := by
  unfold chan_destroy
  split_ifs with h1
  · exact h1
  · show (chan_drop_messages _).1.destroyed = true
    rw [chan_drop_messages_destroyed]

/-- Operations on an already destroyed channel leave the state unchanged:
every entry point returns on its destroyed check. -/
theorem chanStep_destroyed_frozen (c : mbt_chan) (op : ChanOp)
    (h : c.destroyed = true) : chanStep c op = c := by
  cases op with
  | send m =>
    show (match chan_send c m with | none => c | some r => r.2.1) = c
    unfold chan_send
    rw [if_neg (by simp [h]), if_pos (Or.inl h)]
  | trySend m =>
    show (chan_try_send c m).2.1 = c
    unfold chan_try_send
    rw [if_pos (Or.inl h)]
  | recv =>
    show (match chan_recv c with | none => c | some r => r.2.2) = c
    unfold chan_recv
    rw [if_neg (by simp [h]), if_pos (Or.inl h)]
  | tryRecv =>
    show (chan_try_recv c).2.2 = c
    unfold chan_try_recv
    rw [if_pos (Or.inl h)]
  | close =>
    show chan_close c = c
    unfold chan_close
    rw [if_pos h]
  | senderClone =>
    show chan_sender_clone c = c
    unfold chan_sender_clone
    rw [if_pos h]
  | receiverClone =>
    show chan_receiver_clone c = c
    unfold chan_receiver_clone
    rw [if_pos h]
  | senderDrop =>
    show (chan_sender_drop c).1 = c
    unfold chan_sender_drop
    rw [if_pos h]
  | receiverDrop =>
    show (chan_receiver_drop c).1 = c
    unfold chan_receiver_drop
    rw [if_pos h]

/-!
Claim theorems.
-/

/-- C10: every channel operation invoked with a NULL channel handle is
total and fails gracefully without dereferencing: send, try_send, recv,
try_recv, close, the clones, the drops and len return their failure or
zero result, is_closed reports true, and send/try_send still release the
payload reference exactly once. -/
theorem null_handle_ops (m : Msg) :
    mbt_chan_send none m = some (false, none, 1) ∧
    mbt_chan_try_send none m = (false, none, 1) ∧
    mbt_chan_recv none = some (false, none, none) ∧
    mbt_chan_try_recv none = (false, none, none) ∧
    mbt_chan_close none = none ∧
    mbt_chan_sender_clone none = none ∧
    mbt_chan_receiver_clone none = none ∧
    mbt_chan_sender_drop none = (none, []) ∧
    mbt_chan_receiver_drop none = (none, []) ∧
    mbt_chan_len none = 0 ∧
    mbt_chan_is_closed none = true :=
  ⟨rfl, rfl, rfl, rfl, rfl, rfl, rfl, rfl, rfl, rfl, rfl⟩

theorem null_handle_ops_witness :
    mbt_chan_send none 0 = some (false, none, 1) ∧
    mbt_chan_try_send none 0 = (false, none, 1) ∧
    mbt_chan_recv none = some (false, none, none) ∧
    mbt_chan_try_recv none = (false, none, none) ∧
    mbt_chan_close none = none ∧
    mbt_chan_sender_clone none = none ∧
    mbt_chan_receiver_clone none = none ∧
    mbt_chan_sender_drop none = (none, []) ∧
    mbt_chan_receiver_drop none = (none, []) ∧
    mbt_chan_len none = 0 ∧
    mbt_chan_is_closed none = true :=
  null_handle_ops 0

/-- C4: mbt_chan_try_send on a full, closed, destroyed or receiverless
channel fails immediately (it is a total function, with no suspension
point), leaves the channel state unchanged and releases the reference to
msg exactly once; otherwise it enqueues msg at tail, increments len and
succeeds. -/
theorem try_send_spec (c : mbt_chan) (m : Msg) (hwf : ChanWF c) :
    (c.destroyed = true ∨ c.closed = true ∨ c.receivers = 0 ∨
       c.len = c.capacity →
       chan_try_send c m = (false, c, 1)) ∧
    (c.destroyed = false → c.closed = false → c.receivers ≠ 0 →
       c.len ≠ c.capacity →
       chan_try_send c m = (true, chanEnqueue c m, 0) ∧
       chanList (chanEnqueue c m) = chanList c ++ [some m] ∧
       (chanEnqueue c m).len = c.len + 1) := by
  constructor
  · exact chan_try_send_fail c m
  · intro h1 h2 h3 h4
    have hlt : c.len < c.capacity := by
      have := hwf.2.2.1
      omega
    exact ⟨chan_try_send_ok c m h1 h2 h3 h4,
      (chanEnqueue_spec c m hwf h1 hlt).2, rfl⟩

theorem try_send_spec_witness :
    chan_try_send (chanEnqueue (mbt_chan_new 1) 7) 9 =
      (false, chanEnqueue (mbt_chan_new 1) 7, 1) ∧
    chan_try_send (mbt_chan_new 1) 7 =
      (true, chanEnqueue (mbt_chan_new 1) 7, 0) :=
  ⟨(try_send_spec (chanEnqueue (mbt_chan_new 1) 7) 9 (by decide)).1
      (by decide),
   ((try_send_spec (mbt_chan_new 1) 7 (by decide)).2 (by decide) (by decide)
      (by decide) (by decide)).1⟩

/-- C1: FIFO.  From any well-formed empty channel state, three successful
blocking sends of a, b, c followed by three receives (each blocking or
non-blocking) succeed and yield exactly a, b, c in the order sent:
enqueue writes at tail and dequeue reads at head, both advancing modulo
capacity. -/
theorem chan_fifo (s : mbt_chan) (a b c : Msg) (r1 r2 r3 : Bool)
    (hwf : ChanWF s) (hempty : s.len = 0)
    (s1 s2 s3 : mbt_chan)
    (h1 : chan_send s a = some (true, s1, 0))
    (h2 : chan_send s1 b = some (true, s2, 0))
    (h3 : chan_send s2 c = some (true, s3, 0)) :
    recvOp r1 s3 = some (true, some a, (chanDequeue s3).2) ∧
    recvOp r2 (chanDequeue s3).2 =
      some (true, some b, (chanDequeue (chanDequeue s3).2).2) ∧
    recvOp r3 (chanDequeue (chanDequeue s3).2).2 =
      some (true, some c,
        (chanDequeue (chanDequeue (chanDequeue s3).2).2).2) := by
  obtain ⟨hd, hc, hrne, hlt, he1, -⟩ := chan_send_success_elim s a s1 0 hwf h1
  subst he1
  have hs1 := chanEnqueue_spec s a hwf hd hlt
  obtain ⟨hd2, hc2, hrne2, hlt2, he2, -⟩ :=
    chan_send_success_elim _ b s2 0 hs1.1 h2
  subst he2
  have hs2 := chanEnqueue_spec _ b hs1.1 hd2 hlt2
  obtain ⟨hd3, hc3, hrne3, hlt3, he3, -⟩ :=
    chan_send_success_elim _ c s3 0 hs2.1 h3
  subst he3
  have hs3 := chanEnqueue_spec _ c hs2.1 hd3 hlt3
  have hlist0 : chanList s = [] := by
    unfold chanList
    rw [hempty]
    rfl
  have hlist3 : chanList (chanEnqueue (chanEnqueue (chanEnqueue s a) b) c) =
      [some a, some b, some c] := by
    rw [hs3.2, hs2.2, hs1.2, hlist0]
    rfl
  have hd3' : (chanEnqueue (chanEnqueue (chanEnqueue s a) b) c).destroyed =
      false := hd3
  have hlen3 : (chanEnqueue (chanEnqueue (chanEnqueue s a) b) c).len = 3 := by
    show s.len + 1 + 1 + 1 = 3
    omega
  have dq1 := chanDequeue_spec _ hs3.1 hd3' (by omega)
  have hcons1 : [some a, some b, some c] =
      bufSlot (chanEnqueue (chanEnqueue (chanEnqueue s a) b) c)
        (chanEnqueue (chanEnqueue (chanEnqueue s a) b) c).head ::
      chanList (chanDequeue
        (chanEnqueue (chanEnqueue (chanEnqueue s a) b) c)).2 := by
    rw [← hlist3]
    exact dq1.2.1
  injection hcons1 with hhd1 htl1
  have hdd1 : (chanDequeue
      (chanEnqueue (chanEnqueue (chanEnqueue s a) b) c)).2.destroyed =
      false := hd3'
  have hlend1 : (chanDequeue
      (chanEnqueue (chanEnqueue (chanEnqueue s a) b) c)).2.len =
      (chanEnqueue (chanEnqueue (chanEnqueue s a) b) c).len - 1 := rfl
  have dq2 := chanDequeue_spec _ dq1.1 hdd1 (by omega)
  have hcons2 := htl1.trans dq2.2.1
  injection hcons2 with hhd2 htl2
  have hdd2 : (chanDequeue (chanDequeue
      (chanEnqueue (chanEnqueue (chanEnqueue s a) b) c)).2).2.destroyed =
      false := hd3'
  have hlend2 : (chanDequeue (chanDequeue
      (chanEnqueue (chanEnqueue (chanEnqueue s a) b) c)).2).2.len =
      (chanDequeue
        (chanEnqueue (chanEnqueue (chanEnqueue s a) b) c)).2.len - 1 := rfl
  have dq3 := chanDequeue_spec _ dq2.1 hdd2 (by omega)
  have hcons3 := htl2.trans dq3.2.1
  injection hcons3 with hhd3 htl3
  refine ⟨?_, ?_, ?_⟩
  · rw [recvOp_ok r1 _ hd3' (by omega)]
    have hp : (chanDequeue
        (chanEnqueue (chanEnqueue (chanEnqueue s a) b) c)).1 = some a :=
      hhd1.symm
    rw [hp]
  · rw [recvOp_ok r2 _ hdd1 (by omega)]
    have hp : (chanDequeue (chanDequeue
        (chanEnqueue (chanEnqueue (chanEnqueue s a) b) c)).2).1 = some b :=
      hhd2.symm
    rw [hp]
  · rw [recvOp_ok r3 _ hdd2 (by omega)]
    have hp : (chanDequeue (chanDequeue (chanDequeue
        (chanEnqueue (chanEnqueue (chanEnqueue s a) b) c)).2).2).1 =
        some c := hhd3.symm
    rw [hp]

def fifoS0 : mbt_chan := mbt_chan_new 3
def fifoS1 : mbt_chan := chanEnqueue fifoS0 1
def fifoS2 : mbt_chan := chanEnqueue fifoS1 2
def fifoS3 : mbt_chan := chanEnqueue fifoS2 3

theorem chan_fifo_witness :
    recvOp true fifoS3 = some (true, some 1, (chanDequeue fifoS3).2) ∧
    recvOp true (chanDequeue fifoS3).2 =
      some (true, some 2, (chanDequeue (chanDequeue fifoS3).2).2) ∧
    recvOp true (chanDequeue (chanDequeue fifoS3).2).2 =
      some (true, some 3,
        (chanDequeue (chanDequeue (chanDequeue fifoS3).2).2).2) :=
  chan_fifo fifoS0 1 2 3 true true true (by decide) (by decide)
    fifoS1 fifoS2 fifoS3 (by decide) (by decide) (by decide)

/-- Draining a non-destroyed channel with n queued items by n try_recv
calls: every call succeeds, the payloads come out in buffer order, and the
final state is empty with the closed flag untouched. -/
theorem tryRecvN_drain : ∀ (n : Nat) (c : mbt_chan), ChanWF c →
    c.destroyed = false → c.len.toNat = n →
    (tryRecvN c n).1 = (chanList c).map (fun o => (true, o)) ∧
    (tryRecvN c n).2.len = 0 ∧
    (tryRecvN c n).2.closed = c.closed ∧
    (tryRecvN c n).2.destroyed = false ∧
    ChanWF (tryRecvN c n).2 := by
  intro n
  induction n with
  | zero =>
    intro c hwf hd hn
    have hlen0 : 0 ≤ c.len := hwf.2.1
    have hlist : chanList c = [] := by
      unfold chanList
      rw [hn]
      rfl
    exact ⟨by rw [hlist]; rfl, by show c.len = 0; omega, rfl, hd, hwf⟩
  | succ k ih =>
    intro c hwf hd hn
    have hlen0 : 0 ≤ c.len := hwf.2.1
    have hpos : c.len ≠ 0 := by omega
    have hr := chan_try_recv_ok c hd hpos
    have dq := chanDequeue_spec c hwf hd (by omega)
    have hdn : (chanDequeue c).2.destroyed = false := hd
    have hln : (chanDequeue c).2.len = c.len - 1 := rfl
    have ihc := ih (chanDequeue c).2 dq.1 hdn (by omega)
    show ((chan_try_recv c).1, (chan_try_recv c).2.1) ::
        (tryRecvN (chan_try_recv c).2.2 k).1 =
        (chanList c).map (fun o => (true, o)) ∧
      (tryRecvN (chan_try_recv c).2.2 k).2.len = 0 ∧
      (tryRecvN (chan_try_recv c).2.2 k).2.closed = c.closed ∧
      (tryRecvN (chan_try_recv c).2.2 k).2.destroyed = false ∧
      ChanWF (tryRecvN (chan_try_recv c).2.2 k).2
    rw [hr]
    refine ⟨?_, ihc.2.1, ihc.2.2.1, ihc.2.2.2.1, ihc.2.2.2.2⟩
    rw [dq.2.1, List.map_cons, ihc.1]
    rfl

/-- C3: closing does not discard buffered items.  For every well-formed
open channel holding N buffered items, after mbt_chan_close the next N
receives all succeed and return exactly the N buffered slots in order;
after that, try_recv and recv both fail producing no payload and leave the
state unchanged.  On a closed channel mbt_chan_recv never parks, so recv
and try_recv coincide there and "receive" may mean either call
throughout. -/
theorem close_preserves_buffered (s : mbt_chan) (hwf : ChanWF s)
    (hd : s.destroyed = false) (_hc : s.closed = false) :
    (tryRecvN (chan_close s) s.len.toNat).1 =
      (chanList s).map (fun o => (true, o)) ∧
    (tryRecvN (chan_close s) s.len.toNat).2.len = 0 ∧
    chan_try_recv (tryRecvN (chan_close s) s.len.toNat).2 =
      (false, none, (tryRecvN (chan_close s) s.len.toNat).2) ∧
    chan_recv (tryRecvN (chan_close s) s.len.toNat).2 =
      some (false, none, (tryRecvN (chan_close s) s.len.toNat).2) ∧
    (∀ t : mbt_chan, t.closed = true →
       chan_recv t = some (chan_try_recv t)) := by
  have hcl : chan_close s = { s with closed := true } := by
    unfold chan_close
    rw [if_neg (by simp [hd])]
  have hwfc : ChanWF (chan_close s) := chan_close_WF s hwf
  have hdc : (chan_close s).destroyed = false := by
    rw [hcl]
    exact hd
  have hlc : (chan_close s).len.toNat = s.len.toNat := by rw [hcl]
  have hdr := tryRecvN_drain s.len.toNat (chan_close s) hwfc hdc hlc
  have hlistc : chanList (chan_close s) = chanList s := by
    rw [hcl]
    rfl
  have hclosef : (tryRecvN (chan_close s) s.len.toNat).2.closed = true := by
    rw [hdr.2.2.1, hcl]
  refine ⟨?_, hdr.2.1, ?_, ?_,
    fun t ht => chan_recv_eq_try_recv_of_closed t ht⟩
  · rw [hdr.1, hlistc]
  · exact chan_try_recv_fail _ (Or.inr hdr.2.1)
  · rw [chan_recv_eq_try_recv_of_closed _ hclosef,
      chan_try_recv_fail _ (Or.inr hdr.2.1)]

def c3S : mbt_chan := chanEnqueue (chanEnqueue (mbt_chan_new 2) 4) 5

theorem close_preserves_buffered_witness :
    (tryRecvN (chan_close c3S) c3S.len.toNat).1 =
      (chanList c3S).map (fun o => (true, o)) ∧
    (tryRecvN (chan_close c3S) c3S.len.toNat).2.len = 0 ∧
    chan_try_recv (tryRecvN (chan_close c3S) c3S.len.toNat).2 =
      (false, none, (tryRecvN (chan_close c3S) c3S.len.toNat).2) ∧
    chan_recv (tryRecvN (chan_close c3S) c3S.len.toNat).2 =
      some (false, none, (tryRecvN (chan_close c3S) c3S.len.toNat).2) ∧
    (∀ t : mbt_chan, t.closed = true →
       chan_recv t = some (chan_try_recv t)) :=
  close_preserves_buffered c3S (by decide) (by decide) (by decide)

/-- C6: the receiver_drop that brings the receiver count to 0 marks the
channel closed and drains the buffer, releasing each buffered payload
exactly once (the released list is exactly the queued-payloads list) and
leaving len = 0; the sender_drop that brings the sender count to 0 marks
the channel closed; whichever drop makes both counts 0 performs
destruction (and only then). -/
theorem drop_last_handles (s : mbt_chan) (hwf : ChanWF s)
    (hd : s.destroyed = false) :
    (s.receivers = 1 →
       (chan_receiver_drop s).1.closed = true ∧
       (chan_receiver_drop s).1.len = 0 ∧
       (chan_receiver_drop s).2 = chanPayloads s ∧
       ((chan_receiver_drop s).1.destroyed = true ↔ s.senders = 0)) ∧
    (s.senders = 1 →
       (chan_sender_drop s).1.closed = true ∧
       ((chan_sender_drop s).1.destroyed = true ↔ s.receivers = 0) ∧
       (s.receivers = 0 →
          (chan_sender_drop s).2 = chanPayloads s ∧
          (chan_sender_drop s).1.len = 0)) := by
  obtain ⟨hcap, hlen0, hlencap, hh0, hhc, ht0, htc, htail, hs, hr, _, hndes,
    hslots⟩ := hwf
  obtain ⟨bne, hblen⟩ := hndes hd
  obtain ⟨b, hb⟩ : ∃ b, s.buf = some b := by
    cases hbuf : s.buf with
    | none => exact absurd hbuf bne
    | some b => exact ⟨b, rfl⟩
  have hblen' : b.length = s.capacity.toNat := by
    simpa [bufLen, hb] using hblen
  constructor
  · -- receiver side
    intro hr1
    have hmain : chan_receiver_drop s =
        (if s.senders = 0 then
           ((chan_destroy (chan_drop_messages
               { s with receivers := 0, closed := true }).1).1,
            (chan_drop_messages { s with receivers := 0, closed := true }).2
              ++ (chan_destroy (chan_drop_messages
               { s with receivers := 0, closed := true }).1).2)
         else chan_drop_messages { s with receivers := 0, closed := true }) :=
      by
      unfold chan_receiver_drop
      rw [if_neg (by simp [hd]), hr1]
      norm_num
    have hdm := chan_drop_messages_spec
      { s with receivers := 0, closed := true } b hb hcap hlen0 hlencap
      hh0 hhc hblen'
    have hpay : chanPayloads { s with receivers := 0, closed := true } =
        chanPayloads s := rfl
    by_cases hs0 : s.senders = 0
    · rw [hmain, if_pos hs0]
      have hloopLen :
          (dropLoopN b s.head s.capacity s.len.toNat).1.length =
          s.capacity.toNat := by
        have := (dropLoopN_spec s.capacity hcap s.len.toNat b s.head hh0
          hhc (by omega) hblen').1
        omega
      rw [hdm.1]
      have heq := chan_destroy_eq
        { s with receivers := 0, closed := true,
                 buf := some (dropLoopN b s.head s.capacity s.len.toNat).1,
                 head := 0, tail := 0, len := 0 }
        (dropLoopN b s.head s.capacity s.len.toNat).1 rfl hcap
        (le_refl (0 : Int)) (show (0 : Int) ≤ s.capacity from by omega)
        (le_refl (0 : Int)) (show (0 : Int) < s.capacity from by omega)
        hloopLen hd
      rw [heq.1, heq.2]
      refine ⟨rfl, rfl, ?_, by simp [hs0]⟩
      have hnil : chanPayloads
          { s with receivers := 0, closed := true,
                   buf := some (dropLoopN b s.head s.capacity s.len.toNat).1,
                   head := 0, tail := 0, len := 0 } = [] := rfl
      rw [hdm.2.2, hnil, hpay, List.append_nil]
    · rw [hmain, if_neg hs0, hdm.1, hdm.2.2, hpay]
      refine ⟨rfl, rfl, rfl, ?_⟩
      show s.destroyed = true ↔ s.senders = 0
      simp [hd, hs0]
  · -- sender side
    intro hs1
    have hmain : chan_sender_drop s =
        (if s.receivers = 0 then
           chan_destroy { s with senders := 0, closed := true }
         else ({ s with senders := 0, closed := true }, [])) := by
      unfold chan_sender_drop
      rw [if_neg (by simp [hd]), hs1]
      norm_num
    by_cases hr0 : s.receivers = 0
    · rw [hmain, if_pos hr0]
      have heq := chan_destroy_eq { s with senders := 0, closed := true }
        b hb hcap hlen0 hlencap hh0 hhc hblen' hd
      rw [heq.1, heq.2]
      exact ⟨rfl, by simp [hr0], fun _ => ⟨rfl, rfl⟩⟩
    · rw [hmain, if_neg hr0]
      refine ⟨rfl, ?_, fun h => absurd h hr0⟩
      show s.destroyed = true ↔ s.receivers = 0
      simp [hd, hr0]

def c6S : mbt_chan := chanEnqueue (chanEnqueue (mbt_chan_new 3) 8) 9

theorem drop_last_handles_witness :
    (chan_receiver_drop c6S).1.closed = true ∧
    (chan_receiver_drop c6S).1.len = 0 ∧
    (chan_receiver_drop c6S).2 = chanPayloads c6S ∧
    ((chan_receiver_drop c6S).1.destroyed = true ↔ c6S.senders = 0) :=
  (drop_last_handles c6S (by decide) (by decide)).1 (by decide)

/-- C2: the stored capacity is at least 1, fixed at creation, and in every
reachable state 0 ≤ len ≤ capacity; at len = capacity try_send fails with
the state unchanged and the reference released, and send either parks or
fails without enqueueing; a successful recv or try_recv only decrements a
positive length. -/
theorem chan_invariant (cap : Int) (ops : List ChanOp) :
    (chanRun cap ops).capacity = (if cap ≤ 0 then 1 else cap) ∧
    1 ≤ (chanRun cap ops).capacity ∧
    0 ≤ (chanRun cap ops).len ∧
    (chanRun cap ops).len ≤ (chanRun cap ops).capacity ∧
    (∀ m : Msg, (chanRun cap ops).len = (chanRun cap ops).capacity →
       chan_try_send (chanRun cap ops) m = (false, chanRun cap ops, 1) ∧
       (chan_send (chanRun cap ops) m = none ∨
        chan_send (chanRun cap ops) m =
          some (false, chanRun cap ops, 1))) ∧
    (∀ (r : Option Msg) (s' : mbt_chan),
       (chan_recv (chanRun cap ops) = some (true, r, s') →
          0 < (chanRun cap ops).len ∧
          s'.len = (chanRun cap ops).len - 1) ∧
       (chan_try_recv (chanRun cap ops) = (true, r, s') →
          0 < (chanRun cap ops).len ∧
          s'.len = (chanRun cap ops).len - 1)) := by
  have hwf := chanRun_WF cap ops
  have hcapfix := chanRun_capacity cap ops
  obtain ⟨h1, hlen0, hlencap, -, -, -, -, -, hs, hr, -, -, -⟩ := hwf
  refine ⟨hcapfix, h1, hlen0, hlencap, ?_, ?_⟩
  · intro m hfull
    refine ⟨chan_try_send_fail _ m (Or.inr (Or.inr (Or.inr hfull))), ?_⟩
    unfold chan_send
    by_cases hblock : (chanRun cap ops).destroyed = false ∧
        (chanRun cap ops).closed = false ∧
        0 < (chanRun cap ops).receivers ∧
        (chanRun cap ops).len = (chanRun cap ops).capacity
    · left
      rw [if_pos hblock]
    · right
      have hfailcond : (chanRun cap ops).destroyed = true ∨
          (chanRun cap ops).closed = true ∨
          (chanRun cap ops).receivers = 0 := by
        by_contra hno
        push_neg at hno
        refine hblock ⟨by simpa using hno.1, by simpa using hno.2.1, ?_,
          hfull⟩
        have := hno.2.2
        omega
      rw [if_neg hblock, if_pos hfailcond]
  · intro r s'
    constructor
    · intro h
      unfold chan_recv at h
      split_ifs at h with hb hf
      · exact absurd h (by simp)
      · push_neg at hf
        simp only [Option.some.injEq, Prod.mk.injEq] at h
        obtain ⟨-, -, hs'⟩ := h
        refine ⟨by have := hf.2; omega, ?_⟩
        rw [← hs']
        rfl
    · intro h
      unfold chan_try_recv at h
      split_ifs at h with hf
      · exact absurd h (by simp)
      · push_neg at hf
        simp only [Prod.mk.injEq] at h
        obtain ⟨-, -, hs'⟩ := h
        refine ⟨by have := hf.2; omega, ?_⟩
        rw [← hs']
        rfl

theorem chan_invariant_witness :
    chan_try_send (chanRun 2 [ChanOp.send 5, ChanOp.send 6]) 7 =
      (false, chanRun 2 [ChanOp.send 5, ChanOp.send 6], 1) ∧
    (chanRun 2 [ChanOp.send 5, ChanOp.send 6]).len ≤
      (chanRun 2 [ChanOp.send 5, ChanOp.send 6]).capacity :=
  ⟨((chan_invariant 2 [ChanOp.send 5, ChanOp.send 6]).2.2.2.2.1 7
      (by decide)).1,
   (chan_invariant 2 [ChanOp.send 5, ChanOp.send 6]).2.2.2.1⟩

/-- A step out of a live state sets the destroyed flag exactly when the
operation is the drop that takes both reference counts to zero. -/
theorem chanStep_destroyed_iff (c : mbt_chan) (op : ChanOp)
    (hwf : ChanWF c) (hd : c.destroyed = false) :
    ((chanStep c op).destroyed = true ↔
      (op = ChanOp.senderDrop ∧ c.senders = 1 ∧ c.receivers = 0) ∨
      (op = ChanOp.receiverDrop ∧ c.receivers = 1 ∧ c.senders = 0)) := by
  have hs : 0 ≤ c.senders := hwf.2.2.2.2.2.2.2.2.1
  have hr : 0 ≤ c.receivers := hwf.2.2.2.2.2.2.2.2.2.1
  cases op with
  | send m =>
    have hstep : (chanStep c (ChanOp.send m)).destroyed = false := by
      show (match chan_send c m with
            | none => c | some r => r.2.1).destroyed = false
      unfold chan_send
      split_ifs <;> exact hd
    rw [hstep]
    simp
  | trySend m =>
    have hstep : (chanStep c (ChanOp.trySend m)).destroyed = false := by
      show (chan_try_send c m).2.1.destroyed = false
      unfold chan_try_send
      split_ifs <;> exact hd
    rw [hstep]
    simp
  | recv =>
    have hstep : (chanStep c ChanOp.recv).destroyed = false := by
      show (match chan_recv c with
            | none => c | some r => r.2.2).destroyed = false
      unfold chan_recv
      split_ifs <;> exact hd
    rw [hstep]
    simp
  | tryRecv =>
    have hstep : (chanStep c ChanOp.tryRecv).destroyed = false := by
      show (chan_try_recv c).2.2.destroyed = false
      unfold chan_try_recv
      split_ifs <;> exact hd
    rw [hstep]
    simp
  | close =>
    have hstep : (chanStep c ChanOp.close).destroyed = false := by
      show (chan_close c).destroyed = false
      unfold chan_close
      split_ifs <;> exact hd
    rw [hstep]
    simp
  | senderClone =>
    have hstep : (chanStep c ChanOp.senderClone).destroyed = false := by
      show (chan_sender_clone c).destroyed = false
      unfold chan_sender_clone
      split_ifs <;> exact hd
    rw [hstep]
    simp
  | receiverClone =>
    have hstep : (chanStep c ChanOp.receiverClone).destroyed = false := by
      show (chan_receiver_clone c).destroyed = false
      unfold chan_receiver_clone
      split_ifs <;> exact hd
    rw [hstep]
    simp
  | senderDrop =>
    show ((chan_sender_drop c).1.destroyed = true ↔ _)
    unfold chan_sender_drop
    rw [if_neg (by simp [hd])]
    dsimp only
    by_cases hcl : 0 < c.senders ∧
        (if 0 < c.senders then c.senders - 1 else c.senders) = 0 ∧
        c.receivers = 0
    · rw [if_pos hcl, chan_destroy_destroyed]
      constructor
      · intro _
        left
        refine ⟨rfl, ?_, hcl.2.2⟩
        obtain ⟨hp, hz, -⟩ := hcl
        rw [if_pos hp] at hz
        omega
      · intro _
        rfl
    · rw [if_neg hcl]
      have hres : ({ c with
          senders := if 0 < c.senders then c.senders - 1 else c.senders,
          closed := if (if 0 < c.senders then c.senders - 1
                       else c.senders) = 0 then true
                    else c.closed } : mbt_chan).destroyed = false := hd
      rw [hres]
      constructor
      · intro h
        exact absurd h (by simp)
      · rintro (⟨-, hs1, hr0⟩ | ⟨hop, -⟩)
        · exact absurd (⟨by omega, by rw [if_pos (by omega)]; omega, hr0⟩ :
            0 < c.senders ∧
            (if 0 < c.senders then c.senders - 1 else c.senders) = 0 ∧
            c.receivers = 0) hcl
        · exact absurd hop (by simp)
  | receiverDrop =>
    show ((chan_receiver_drop c).1.destroyed = true ↔ _)
    unfold chan_receiver_drop
    rw [if_neg (by simp [hd])]
    dsimp only
    by_cases hcl : 0 < c.receivers ∧
        (if 0 < c.receivers then c.receivers - 1 else c.receivers) = 0 ∧
        c.senders = 0
    · rw [if_pos hcl]
      have hdz : ((if (if 0 < c.receivers then c.receivers - 1
            else c.receivers) = 0 then
          chan_drop_messages
            { c with receivers := if 0 < c.receivers then c.receivers - 1
                                  else c.receivers, closed := true }
        else ({ c with receivers := if 0 < c.receivers then c.receivers - 1
                                    else c.receivers }, ([] : List Msg))) :
          mbt_chan × List Msg).1.destroyed = false := by
        split_ifs <;>
          first
            | (rw [chan_drop_messages_destroyed]; exact hd)
            | exact hd
      rw [chan_destroy_destroyed]
      constructor
      · intro _
        right
        refine ⟨rfl, ?_, hcl.2.2⟩
        obtain ⟨hp, hz, -⟩ := hcl
        rw [if_pos hp] at hz
        omega
      · intro _
        rfl
    · rw [if_neg hcl]
      have hres : ((if (if 0 < c.receivers then c.receivers - 1
            else c.receivers) = 0 then
          chan_drop_messages
            { c with receivers := if 0 < c.receivers then c.receivers - 1
                                  else c.receivers, closed := true }
        else ({ c with receivers := if 0 < c.receivers then c.receivers - 1
                                    else c.receivers }, ([] : List Msg))) :
          mbt_chan × List Msg).1.destroyed = false := by
        split_ifs <;>
          first
            | (rw [chan_drop_messages_destroyed]; exact hd)
            | exact hd
      rw [hres]
      constructor
      · intro h
        exact absurd h (by simp)
      · rintro (⟨hop, -⟩ | ⟨-, hr1, hs0⟩)
        · exact absurd hop (by simp)
        · exact absurd (⟨by omega, by rw [if_pos (by omega)]; omega, hs0⟩ :
            0 < c.receivers ∧
            (if 0 < c.receivers then c.receivers - 1 else c.receivers) = 0 ∧
            c.senders = 0) hcl

/-- C5: in every reachable state, destroyed implies closed, empty and a
detached buffer pointer; a destroyed state is frozen (every further
operation returns it unchanged, so there is at most one transition into
destroyed along any run); out of a live state the destroyed flag is set
precisely by the drop that makes senders and receivers simultaneously 0;
and re-entering mbt_chan_destroy on a destroyed state is a no-op. -/
theorem chan_destroy_lifecycle (cap : Int) (ops : List ChanOp) :
    ((chanRun cap ops).destroyed = true →
       (chanRun cap ops).closed = true ∧ (chanRun cap ops).len = 0 ∧
       (chanRun cap ops).buf = none) ∧
    (∀ op : ChanOp, (chanRun cap ops).destroyed = true →
       chanStep (chanRun cap ops) op = chanRun cap ops) ∧
    (∀ op : ChanOp, (chanRun cap ops).destroyed = false →
       ((chanStep (chanRun cap ops) op).destroyed = true ↔
         (op = ChanOp.senderDrop ∧ (chanRun cap ops).senders = 1 ∧
            (chanRun cap ops).receivers = 0) ∨
         (op = ChanOp.receiverDrop ∧ (chanRun cap ops).receivers = 1 ∧
            (chanRun cap ops).senders = 0))) ∧
    ((chanRun cap ops).destroyed = true →
       chan_destroy (chanRun cap ops) = (chanRun cap ops, [])) := by
  have hwf := chanRun_WF cap ops
  refine ⟨?_, ?_, ?_, ?_⟩
  · intro h
    have hdes := hwf.2.2.2.2.2.2.2.2.2.2.1 h
    exact ⟨hdes.1, hdes.2.1, hdes.2.2.1⟩
  · intro op h
    exact chanStep_destroyed_frozen _ op h
  · intro op h
    exact chanStep_destroyed_iff _ op hwf h
  · intro h
    unfold chan_destroy
    rw [if_pos h]

theorem chan_destroy_lifecycle_witness :
    ((chanRun 1 [ChanOp.senderDrop, ChanOp.receiverDrop]).closed = true ∧
     (chanRun 1 [ChanOp.senderDrop, ChanOp.receiverDrop]).len = 0 ∧
     (chanRun 1 [ChanOp.senderDrop, ChanOp.receiverDrop]).buf = none) ∧
    ((chanStep (chanRun 1 [ChanOp.senderDrop])
        ChanOp.receiverDrop).destroyed = true ↔
      (ChanOp.receiverDrop = ChanOp.senderDrop ∧
         (chanRun 1 [ChanOp.senderDrop]).senders = 1 ∧
         (chanRun 1 [ChanOp.senderDrop]).receivers = 0) ∨
      (ChanOp.receiverDrop = ChanOp.receiverDrop ∧
         (chanRun 1 [ChanOp.senderDrop]).receivers = 1 ∧
         (chanRun 1 [ChanOp.senderDrop]).senders = 0)) :=
  ⟨(chan_destroy_lifecycle 1 [ChanOp.senderDrop, ChanOp.receiverDrop]).1
      (by decide),
   (chan_destroy_lifecycle 1 [ChanOp.senderDrop]).2.2.1 ChanOp.receiverDrop
      (by decide)⟩

/-- The fan-out loop delivers to exactly the accepting subscribers,
retains once per non-NULL subscriber, and releases once per failed
attempt; each subscriber state advances by its own try_send. -/
theorem bcast_send_loop_spec (msg : Msg) (subs : List (Option mbt_chan)) :
    (bcast_send_loop subs msg).2.1 =
      ((subs.filterMap id).countP (fun ch => chanAccepts ch) : Int) ∧
    (bcast_send_loop subs msg).2.2.1 = (subs.filterMap id).length ∧
    (bcast_send_loop subs msg).2.2.2 =
      (subs.filterMap id).length -
        (subs.filterMap id).countP (fun ch => chanAccepts ch) ∧
    (bcast_send_loop subs msg).1 =
      subs.map (Option.map (fun ch => (chan_try_send ch msg).2.1)) := by
  induction subs with
  | nil => exact ⟨rfl, rfl, rfl, rfl⟩
  | cons x rest ih =>
    obtain ⟨ih1, ih2, ih3, ih4⟩ := ih
    cases x with
    | none => exact ⟨ih1, ih2, ih3, congrArg (List.cons none) ih4⟩
    | some ch =>
      have hfm : List.filterMap id (some ch :: rest) =
          ch :: List.filterMap id rest := rfl
      have hle : List.countP (fun ch => chanAccepts ch)
            (List.filterMap id rest) ≤ (List.filterMap id rest).length :=
        List.countP_le_length _
      refine ⟨?_, ?_, ?_, ?_⟩
      · show (if (chan_try_send ch msg).1 = true then (1 : Int) else 0) +
            (bcast_send_loop rest msg).2.1 = _
        rw [hfm, List.countP_cons, chan_try_send_fst, ih1]
        by_cases hacc : chanAccepts ch = true
        · rw [if_pos hacc, if_pos hacc]
          push_cast
          ring
        · rw [if_neg hacc, if_neg hacc]
          push_cast
          ring
      · show 1 + (bcast_send_loop rest msg).2.2.1 = _
        rw [hfm, List.length_cons, ih2]
        omega
      · show (chan_try_send ch msg).2.2 +
            (bcast_send_loop rest msg).2.2.2 = _
        rw [hfm, List.length_cons, List.countP_cons,
          chan_try_send_released, ih3]
        by_cases hacc : chanAccepts ch = true
        · rw [if_pos hacc, if_pos hacc]
          omega
        · rw [if_neg hacc, if_neg hacc]
          omega
      · show some (chan_try_send ch msg).2.1 ::
            (bcast_send_loop rest msg).1 = _
        rw [ih4]
        rfl

/-- C7: mbt_bcast_send on a closed or destroyed hub releases the caller
reference and returns 0 without touching any subscriber; on an open hub it
retains one extra reference per non-NULL subscriber attempted, delivers
to exactly the subscribers whose channel accepts (open, with receivers,
not full), releases one reference per failed attempt plus the hub's own
base reference after the loop (so increfs - decrefs = delivered - 1), and
in particular returns K when all K subscribers accept and K - 1 when
exactly one of them is full. -/
theorem bcast_send_spec (b : mbt_bcast) (msg : Msg) :
    (b.destroyed = true ∨ b.closed = true →
       mbt_bcast_send b msg = (0, b, 0, 1)) ∧
    (b.destroyed = false → b.closed = false →
       (mbt_bcast_send b msg).1 =
         ((b.subs.filterMap id).countP (fun ch => chanAccepts ch) : Int) ∧
       (mbt_bcast_send b msg).2.2.1 = (b.subs.filterMap id).length ∧
       (mbt_bcast_send b msg).2.2.2 =
         (b.subs.filterMap id).length + 1 -
           (b.subs.filterMap id).countP (fun ch => chanAccepts ch) ∧
       ((mbt_bcast_send b msg).2.2.1 : Int) -
           ((mbt_bcast_send b msg).2.2.2 : Int) =
         (mbt_bcast_send b msg).1 - 1 ∧
       ((mbt_bcast_send b msg).2.1).subs =
         b.subs.map (Option.map (fun ch => (chan_try_send ch msg).2.1)) ∧
       ((mbt_bcast_send b msg).2.1).destroyed = b.destroyed ∧
       ((mbt_bcast_send b msg).2.1).closed = b.closed ∧
       ((mbt_bcast_send b msg).2.1).senders = b.senders ∧
       ((mbt_bcast_send b msg).2.1).capacity = b.capacity ∧
       ((∀ ch ∈ b.subs.filterMap id, chanAccepts ch = true) →
          (mbt_bcast_send b msg).1 = (b.subs.filterMap id).length) ∧
       (∀ (l1 l2 : List mbt_chan) (full : mbt_chan),
          b.subs.filterMap id = l1 ++ full :: l2 →
          chanAccepts full = false →
          (∀ ch ∈ l1 ++ l2, chanAccepts ch = true) →
          (mbt_bcast_send b msg).1 = ((l1.length + l2.length : Nat) : Int)))
    := by
  constructor
  · intro h
    unfold mbt_bcast_send
    rw [if_pos h]
  · intro hd hc
    have hopen : ¬(b.destroyed = true ∨ b.closed = true) := by
      simp [hd, hc]
    obtain ⟨hl1, hl2, hl3, hl4⟩ := bcast_send_loop_spec msg b.subs
    have hle : List.countP (fun ch => chanAccepts ch)
          (List.filterMap id b.subs) ≤ (List.filterMap id b.subs).length :=
      List.countP_le_length _
    have hunf : mbt_bcast_send b msg =
        ((bcast_send_loop b.subs msg).2.1,
         { b with subs := (bcast_send_loop b.subs msg).1 },
         (bcast_send_loop b.subs msg).2.2.1,
         (bcast_send_loop b.subs msg).2.2.2 + 1) := by
      unfold mbt_bcast_send
      rw [if_neg hopen]
    have hd1 : (mbt_bcast_send b msg).1 =
        ((b.subs.filterMap id).countP (fun ch => chanAccepts ch) : Int) := by
      rw [hunf]
      exact hl1
    have hd2 : (mbt_bcast_send b msg).2.2.1 =
        (b.subs.filterMap id).length := by
      rw [hunf]
      exact hl2
    have hd3 : (mbt_bcast_send b msg).2.2.2 =
        (b.subs.filterMap id).length + 1 -
          (b.subs.filterMap id).countP (fun ch => chanAccepts ch) := by
      rw [hunf]
      show (bcast_send_loop b.subs msg).2.2.2 + 1 = _
      rw [hl3]
      omega
    refine ⟨hd1, hd2, hd3, ?_, ?_, ?_, ?_, ?_, ?_, ?_, ?_⟩
    · rw [hd1, hd2, hd3]
      omega
    · rw [hunf]
      exact hl4
    · rw [hunf]
    · rw [hunf]
    · rw [hunf]
    · rw [hunf]
    · intro hall
      rw [hd1, List.countP_eq_length.mpr ?_]
      intro a ha
      exact hall a ha
    · intro l1 l2 full hsplit hfull hrest
      rw [hd1, hsplit, List.countP_append, List.countP_cons]
      rw [if_neg (by rw [hfull]; simp)]
      have hc1 : List.countP (fun ch => chanAccepts ch) l1 = l1.length :=
        List.countP_eq_length.mpr fun a ha =>
          hrest a (List.mem_append.mpr (Or.inl ha))
      have hc2 : List.countP (fun ch => chanAccepts ch) l2 = l2.length :=
        List.countP_eq_length.mpr fun a ha =>
          hrest a (List.mem_append.mpr (Or.inr ha))
      rw [hc1, hc2]
      push_cast
      ring

def c7Hub : mbt_bcast :=
  mbt_bcast.mk false false 1 1
    [some (mbt_chan_new 1), some (chanEnqueue (mbt_chan_new 1) 3)]

def c7HubClosed : mbt_bcast := mbt_bcast.mk false true 1 1 []

theorem bcast_send_spec_witness :
    mbt_bcast_send c7HubClosed 5 = (0, c7HubClosed, 0, 1) ∧
    (mbt_bcast_send c7Hub 5).1 =
      ((c7Hub.subs.filterMap id).countP (fun ch => chanAccepts ch) : Int) ∧
    (mbt_bcast_send c7Hub 5).1 =
      ((([(mbt_chan_new 1 : mbt_chan)].length +
         ([] : List mbt_chan).length : Nat)) : Int) :=
  ⟨(bcast_send_spec c7HubClosed 5).1 (Or.inr rfl),
   ((bcast_send_spec c7Hub 5).2 rfl rfl).1,
   ((bcast_send_spec c7Hub 5).2 rfl rfl).2.2.2.2.2.2.2.2.2.2
     [mbt_chan_new 1] [] (chanEnqueue (mbt_chan_new 1) 3)
     (by decide) (by decide) (by decide)⟩

/-- C8: subscribing to an already closed or destroyed hub still returns a
freshly created channel of the hub's (coerced) capacity on which a
sender-drop has been performed: it reads as closed with length 0, and the
subscriber list is unchanged; subscribing to an open hub registers the new
channel at the end of the subscriber list and returns it untouched. -/
theorem bcast_subscribe_spec (b : mbt_bcast) :
    (b.destroyed = true ∨ b.closed = true →
       mbt_bcast_subscribe b =
         (b, (chan_sender_drop (mbt_chan_new b.capacity)).1) ∧
       chan_is_closed (mbt_bcast_subscribe b).2 = true ∧
       chan_len (mbt_bcast_subscribe b).2 = 0 ∧
       ((mbt_bcast_subscribe b).2).capacity =
         (if b.capacity ≤ 0 then 1 else b.capacity) ∧
       ((mbt_bcast_subscribe b).1).subs = b.subs) ∧
    (b.destroyed = false → b.closed = false →
       mbt_bcast_subscribe b =
         (mbt_bcast_add_subscriber_locked b (mbt_chan_new b.capacity),
          mbt_chan_new b.capacity) ∧
       ((mbt_bcast_subscribe b).1).subs =
         b.subs ++ [some (mbt_chan_new b.capacity)]) := by
  have hnew : mbt_chan_new b.capacity =
      mbt_chan.mk false false 1 1 (if b.capacity ≤ 0 then 1 else b.capacity)
        0 0 0 (some (List.replicate
          (if b.capacity ≤ 0 then 1 else b.capacity).toNat none)) := rfl
  have hdrop : chan_sender_drop (mbt_chan_new b.capacity) =
      (mbt_chan.mk false true 0 1 (if b.capacity ≤ 0 then 1 else b.capacity)
        0 0 0 (some (List.replicate
          (if b.capacity ≤ 0 then 1 else b.capacity).toNat none)), []) := by
    rw [hnew]
    unfold chan_sender_drop
    norm_num
  constructor
  · intro h
    have hsub : mbt_bcast_subscribe b =
        (b, (chan_sender_drop (mbt_chan_new b.capacity)).1) := by
      unfold mbt_bcast_subscribe
      dsimp only
      rw [if_pos h]
    refine ⟨hsub, ?_, ?_, ?_, ?_⟩
    · rw [hsub]
      show chan_is_closed (chan_sender_drop (mbt_chan_new b.capacity)).1 = _
      rw [hdrop]
      rfl
    · rw [hsub]
      show chan_len (chan_sender_drop (mbt_chan_new b.capacity)).1 = _
      rw [hdrop]
      show toInt32 0 = 0
      decide
    · rw [hsub]
      show ((chan_sender_drop (mbt_chan_new b.capacity)).1).capacity = _
      rw [hdrop]
    · rw [hsub]
  · intro hd hc
    have hsub : mbt_bcast_subscribe b =
        (mbt_bcast_add_subscriber_locked b (mbt_chan_new b.capacity),
         mbt_chan_new b.capacity) := by
      unfold mbt_bcast_subscribe
      dsimp only
      rw [if_neg (by simp [hd, hc]), if_neg (by simp [hd, hc])]
    refine ⟨hsub, ?_⟩
    rw [hsub]
    rfl

def c8Closed : mbt_bcast := mbt_bcast.mk false true 1 2 []

def c8Open : mbt_bcast := mbt_bcast.mk false false 1 2 []

theorem bcast_subscribe_spec_witness :
    chan_is_closed (mbt_bcast_subscribe c8Closed).2 = true ∧
    chan_len (mbt_bcast_subscribe c8Closed).2 = 0 ∧
    ((mbt_bcast_subscribe c8Closed).1).subs = c8Closed.subs ∧
    ((mbt_bcast_subscribe c8Open).1).subs =
      c8Open.subs ++ [some (mbt_chan_new c8Open.capacity)] :=
  ⟨((bcast_subscribe_spec c8Closed).1 (Or.inr rfl)).2.1,
   ((bcast_subscribe_spec c8Closed).1 (Or.inr rfl)).2.2.1,
   ((bcast_subscribe_spec c8Closed).1 (Or.inr rfl)).2.2.2.2,
   ((bcast_subscribe_spec c8Open).2 rfl rfl).2⟩

theorem chan_sender_drop_trace_events (i : Nat) (c : mbt_chan) (e : LockEv)
    (he : e ∈ chan_sender_drop_trace i c) :
    e = LockEv.chanAcquire i ∨ e = LockEv.chanRelease i := by
  unfold chan_sender_drop_trace at he
  by_cases h1 : c.destroyed = true
  · rw [if_pos h1] at he
    simp only [List.mem_cons, List.not_mem_nil, or_false] at he
    tauto
  · rw [if_neg h1] at he
    dsimp only at he
    by_cases h2 : 0 < c.senders ∧
        (if 0 < c.senders then c.senders - 1 else c.senders) = 0 ∧
        c.receivers = 0
    · rw [if_pos h2] at he
      simp only [List.mem_cons, List.not_mem_nil, or_false] at he
      tauto
    · rw [if_neg h2] at he
      simp only [List.mem_cons, List.not_mem_nil, or_false] at he
      tauto

/-- C9 (amended): in mbt_bcast_close and in the teardown run by the last
mbt_bcast_sender_drop (mbt_bcast_cleanup), every per-subscriber
sender-drop, and hence every channel-lock acquisition, happens strictly
between the hub-lock acquisition and the hub-lock release: locks nest in
the order hub lock before channel lock, and the hub lock IS held across
each drop call (it is released only after the whole subscriber loop). -/
theorem bcast_teardown_lock_order (b : mbt_bcast)
    (h1 : b.destroyed = false) :
    (b.closed = false →
      mbt_bcast_close_trace b =
        LockEv.hubAcquire :: (subDropsTrace b.subs ++ [LockEv.hubRelease])) ∧
    mbt_bcast_cleanup_trace b =
      LockEv.hubAcquire :: (subDropsTrace b.subs ++ [LockEv.hubRelease]) ∧
    (b.senders = 1 →
      mbt_bcast_sender_drop_trace b =
        [LockEv.hubAcquire, LockEv.hubRelease] ++
          (LockEv.hubAcquire ::
            (subDropsTrace b.subs ++ [LockEv.hubRelease]))) ∧
    (∀ e ∈ subDropsTrace b.subs,
       e ≠ LockEv.hubAcquire ∧ e ≠ LockEv.hubRelease) := by
  refine ⟨?_, ?_, ?_, ?_⟩
  · intro h2
    unfold mbt_bcast_close_trace
    rw [if_neg (by simp [h1, h2])]
  · unfold mbt_bcast_cleanup_trace
    rw [if_neg (by simp [h1])]
  · intro hs1
    unfold mbt_bcast_sender_drop_trace
    rw [if_neg (by simp [h1]), hs1]
    norm_num
    unfold mbt_bcast_cleanup_trace
    rw [if_neg (by simp [h1])]
  · intro e he
    unfold subDropsTrace at he
    rw [List.mem_flatten] at he
    obtain ⟨l, hl, hel⟩ := he
    rw [List.mem_map] at hl
    obtain ⟨p, hp, hpl⟩ := hl
    subst hpl
    cases hx : p.2 with
    | none =>
      rw [hx] at hel
      simp at hel
    | some c =>
      rw [hx] at hel
      rcases chan_sender_drop_trace_events p.1 c e hel with rfl | rfl <;>
        exact ⟨by simp, by simp⟩

def exHub : mbt_bcast := mbt_bcast.mk false false 1 1 [some (mbt_chan_new 1)]

/-- C9 counterexample: for a live hub with one open subscriber,
mbt_bcast_close acquires the subscriber's channel lock BEFORE releasing
the hub lock — the claim that the hub lock is released before the
per-subscriber sender-drop is invoked is false on this code. -/
theorem bcast_close_holds_hub_lock_over_drop :
    mbt_bcast_close_trace exHub =
      [LockEv.hubAcquire, LockEv.chanAcquire 0, LockEv.chanRelease 0,
       LockEv.hubRelease] ∧
    chanAcquireBeforeHubRelease (mbt_bcast_close_trace exHub) = true := by
  decide

theorem bcast_teardown_lock_order_witness :
    mbt_bcast_close_trace exHub =
      LockEv.hubAcquire ::
        (subDropsTrace exHub.subs ++ [LockEv.hubRelease]) ∧
    mbt_bcast_cleanup_trace exHub =
      LockEv.hubAcquire ::
        (subDropsTrace exHub.subs ++ [LockEv.hubRelease]) ∧
    mbt_bcast_sender_drop_trace exHub =
      [LockEv.hubAcquire, LockEv.hubRelease] ++
        (LockEv.hubAcquire ::
          (subDropsTrace exHub.subs ++ [LockEv.hubRelease])) :=
  ⟨(bcast_teardown_lock_order exHub rfl).1 rfl,
   (bcast_teardown_lock_order exHub rfl).2.1,
   (bcast_teardown_lock_order exHub rfl).2.2.1 rfl⟩

